import Mathlib

/-!
# Verification of the libass generic cache engine (`libass/ass_cache.c`)

This file gives a shallow embedding of the reference-counted, eviction-aware
memo-table engine of `ass_cache.c` and proves/refutes the frozen claims about
it.  C structures become Lean structures; the mutable heap of cache items is
modelled by an association list from item ids (standing for item addresses)
to item headers; the bucket array is a sparse association list from bucket
index to the chain of item ids (head of the chain first, as in the C code);
the doubly-linked eviction queue is a list of item ids with `queue_first` at
the head and `queue_last` at the tail; each client's promote list is a list
of item ids with `promote_first` at the head.  Single-threaded executions of
the C functions become pure state-transforming functions; the lock-free
bucket-head CAS retry loop of `ass_cache_get` is additionally modelled with
an explicit interference trace (the successively observed bucket chains).
-/

set_option maxHeartbeats 1000000

/-- Association-list lookup keyed by `Nat` (item ids / bucket indices /
client indices stand in for the corresponding C pointers and array slots). -/
def alook {A : Type} : List (Nat × A) → Nat → Option A
  | [], _ => none
  | (k, v) :: rest, k' => if k = k' then some v else alook rest k'

/-- Association-list update: replace the binding of `k` (first occurrence)
or append a new binding. -/
def aset {A : Type} : List (Nat × A) → Nat → A → List (Nat × A)
  | [], k, v => [(k, v)]
  | (k', v') :: rest, k, v =>
    if k' = k then (k, v) :: rest else (k', v') :: aset rest k v

/-- Association-list removal of every binding of `k` (the association lists
in this development never hold duplicate keys). -/
def aerase {A : Type} (m : List (Nat × A)) (k : Nat) : List (Nat × A) :=
  m.filter (fun p => p.1 != k)

/-- The type descriptor `CacheDesc` of `ass_cache.c`: hash, comparison and
construction functions together with the key/value byte sizes.  `key_move`
success/failure is injected as a boolean at each `get` (a successful move
stores the key itself — the C move transfers ownership of an equal key), and
`key_destruct`/`destruct` are modelled as events. The constructor is modelled
by its self-reported size `construct_func key`. -/
structure CacheDesc (K : Type) where
  hash_func : K → Nat
  compare_func : K → K → Bool
  construct_func : K → Nat
  key_size : Nat
  value_size : Nat

/-- The header fields of `CacheItem` that the claims depend on.  The bucket
chain links (`next`/`prev`), queue links and `promote_next` are represented
by the containing lists in the cache state; `creating_client` only matters
for the (unmodelled) condvar wait. -/
structure CacheItem (K : Type) where
  key : K
  hash : Nat
  size : Nat
  ref_count : Nat
  last_used_frame : Nat
deriving DecidableEq

/-- The `struct cache` state, together with ghost logs used to observe
construction and destruction events, and a `shutdown` flag set by
`ass_cache_done` (the C code has no such field in the item header, which is
exactly what claim C3 is about). -/
structure Cache (K : Type) where
  buckets : Nat
  map : List (Nat × List Nat)
  queue : List Nat
  cache_size : Nat
  cur_frame : Nat
  items : List (Nat × CacheItem K)
  next_id : Nat
  promote : List (Nat × List Nat)
  construct_log : List K
  destroy_log : List Nat
  shutdown : Bool
deriving DecidableEq

/-- The chain hanging off bucket `b` (an absent binding is a NULL head). -/
def mapGet (m : List (Nat × List Nat)) (b : Nat) : List Nat :=
  (alook m b).getD []

/-- All item ids reachable from some bucket chain: the resident items. -/
def allChainIds {K : Type} (s : Cache K) : List Nat :=
  (s.map.map Prod.snd).flatten

/-- The client's promote list (`promote_first` at the head). -/
def promGet (m : List (Nat × List Nat)) (c : Nat) : List Nat :=
  (alook m c).getD []

/-- Concatenation of every client's promote list. -/
def promoteAll {K : Type} (s : Cache K) : List Nat :=
  (s.promote.map Prod.snd).flatten

/-- `last_used_frame` of the item at `id` (0 for a dangling id). -/
def frameOf {K : Type} (s : Cache K) (id : Nat) : Nat :=
  match alook s.items id with
  | some it => it.last_used_frame
  | none => 0

/-- The size contribution an item of self-reported size `size` adds to
`cache_size`, from `size + (size == 1 ? 0 : CACHE_ITEM_SIZE)` in
`ass_cache_get` / `ass_cache_cut` / `ass_cache_empty`.  `H` stands for the
platform constant `CACHE_ITEM_SIZE`. -/
def contribSize (H size : Nat) : Nat :=
  size + (if size = 1 then 0 else H)

/-- Size contribution of an item header. -/
def contrib {K : Type} (H : Nat) (it : CacheItem K) : Nat :=
  contribSize H it.size

/-- Size contribution of the item bound to `id` (0 for a dangling id). -/
def contribOf {K : Type} (H : Nat) (items : List (Nat × CacheItem K))
    (id : Nat) : Nat :=
  match alook items id with
  | some it => contrib H it
  | none => 0

/-- Sum of the contributions of the items named in `chain`. -/
def chainSum {K : Type} (H : Nat) (items : List (Nat × CacheItem K))
    (chain : List Nat) : Nat :=
  (chain.map (contribOf H items)).sum

/-- Sum of the contributions of all resident items. -/
def mapSum {K : Type} (H : Nat) (items : List (Nat × CacheItem K))
    (m : List (Nat × List Nat)) : Nat :=
  (m.map (fun p => chainSum H items p.2)).sum

/-- `ass_cache_create`: fresh cache with `0xFFFF` buckets, empty queue
(`queue_last = &queue_first`), zero size, frame 0. -/
def ass_cache_create (K : Type) : Cache K :=
  { buckets := 0xFFFF
    map := []
    queue := []
    cache_size := 0
    cur_frame := 0
    items := []
    next_id := 0
    promote := []
    construct_log := []
    destroy_log := []
    shutdown := false }

/-- Key-handling events emitted by `ass_cache_get`: `moveNull` is
`key_move(NULL, key)` (abandoning the transient key), `destructKey` is
`key_destruct_func(key)` on a key already moved into a prepared item,
`movedInto` is a successful `key_move` into a new item's key slot. -/
inductive KeyEvent where
  | moveNull
  | destructKey
  | movedInto
deriving DecidableEq

/-- Result of one `ass_cache_get` call: the returned value pointer (the id
of the item whose value slot is returned, `none` for NULL), the new cache
state, and the key-handling events in order. -/
structure GetResult (K : Type) where
  value : Option Nat
  state : Cache K
  events : List KeyEvent
deriving DecidableEq

/-- The chain scan of `ass_cache_get` (lines 552-555): first item whose
stored hash equals the probe hash and whose stored key compares equal. -/
def scanChain {K : Type} (desc : CacheDesc K)
    (items : List (Nat × CacheItem K)) (key : K) (h : Nat) :
    List Nat → Option Nat
  | [] => none
  | id :: rest =>
    match alook items id with
    | none => scanChain desc items key h rest
    | some it =>
      if it.hash = h ∧ desc.compare_func key it.key = true then some id
      else scanChain desc items key h rest

/-- The hit path of `ass_cache_get` (lines 557-565): if the item was not
yet used this frame, stamp `last_used_frame := cur_frame` and push it onto
the calling client's promote list; the reference count is not touched. -/
def getHit {K : Type} (client : Nat) (s : Cache K) (id : Nat)
    (it : CacheItem K) : Cache K :=
  if it.last_used_frame = s.cur_frame then s
  else
    { s with
      items := aset s.items id { it with last_used_frame := s.cur_frame }
      promote := aset s.promote client (id :: promGet s.promote client) }

/-- The new item prepared on a cache miss (lines 609-618): key moved into
the key slot, `size = 0`, `ref_count = 1`, `last_used_frame = cur_frame`,
the probe hash stored. -/
def prepareItem {K : Type} (desc : CacheDesc K) (key : K) (cur : Nat) :
    CacheItem K :=
  { key := key
    hash := desc.hash_func key
    size := 0
    ref_count := 1
    last_used_frame := cur }

/-- Publication of the prepared item (lines 621-635): linked at the bucket
head and at the eviction queue tail.  Returns the new item's id and the
state in which the constructor is then invoked (the item still has
`size = 0` here). -/
def insertNewItem {K : Type} (desc : CacheDesc K) (key : K) (s : Cache K) :
    Nat × Cache K :=
  let hash := desc.hash_func key
  let bucket := hash % s.buckets
  let id := s.next_id
  (id,
    { s with
      items := aset s.items id (prepareItem desc key s.cur_frame)
      map := aset s.map bucket (id :: mapGet s.map bucket)
      queue := s.queue ++ [id]
      next_id := id + 1 })

/-- Completion of construction (lines 638-647): the constructor's reported
size is added to `cache_size` (with the `size == 1` overhead opt-out) and
then stored into the item, replacing the `size = 0` sentinel. -/
def finishConstruct {K : Type} (H id size : Nat) (s : Cache K) : Cache K :=
  { s with
    cache_size := s.cache_size + contribSize H size
    items :=
      match alook s.items id with
      | some it => aset s.items id { it with size := size }
      | none => s.items }

/-- `ass_cache_get` for a single-threaded execution (the CAS always
succeeds; the concurrent retry loop is modelled separately below).
`allocOk` injects the `malloc` result and `keyMoveOk` the `key_move`
result; on either failure the code released the transient key with
`key_move(NULL, key)` and returns NULL leaving the cache untouched. -/
def ass_cache_get {K : Type} (desc : CacheDesc K) (H : Nat) (client : Nat)
    (key : K) (allocOk keyMoveOk : Bool) (s : Cache K) : GetResult K :=
  match scanChain desc s.items key (desc.hash_func key)
      (mapGet s.map (desc.hash_func key % s.buckets)) with
  | some id =>
    match alook s.items id with
    | none => { value := none, state := s, events := [] }
    | some it =>
      { value := some id
        state := getHit client s id it
        events := [KeyEvent.moveNull] }
  | none =>
    if allocOk = false then
      { value := none, state := s, events := [KeyEvent.moveNull] }
    else if keyMoveOk = false then
      { value := none, state := s, events := [KeyEvent.moveNull] }
    else
      { value := some (insertNewItem desc key s).1
        state :=
          { finishConstruct H (insertNewItem desc key s).1
              (desc.construct_func key) (insertNewItem desc key s).2 with
            construct_log := key :: s.construct_log }
        events := [KeyEvent.movedInto] }

/-- `ass_cache_inc_ref` on the value pointer of item `id` (a NULL or
dangling pointer leaves the state unchanged, matching the NULL check). -/
def ass_cache_inc_ref {K : Type} (s : Cache K) (id : Nat) : Cache K :=
  match alook s.items id with
  | none => s
  | some it => { s with items := aset s.items id { it with ref_count := it.ref_count + 1 } }

/-- `dec_ref_item` (lines 681-686): decrement the count; when it reaches
zero the item is destructed immediately and unconditionally (there is no
check whether the cache is still alive). -/
def dec_ref_item {K : Type} (s : Cache K) (id : Nat) : Cache K :=
  match alook s.items id with
  | none => s
  | some it =>
    if it.ref_count - 1 = 0 then
      { s with
        items := aerase s.items id
        destroy_log := id :: s.destroy_log }
    else
      { s with items := aset s.items id { it with ref_count := it.ref_count - 1 } }

/-- `ass_cache_dec_ref` (NULL tolerated). -/
def ass_cache_dec_ref {K : Type} (s : Cache K) (id : Nat) : Cache K :=
  dec_ref_item s id

/-- One eviction of the queue head inside `ass_cache_cut` (lines 728-749):
unlink from the queue and from its bucket chain, subtract the size
contribution, drop the queue-held reference. -/
def evictHead {K : Type} (H : Nat) (s : Cache K) (id : Nat)
    (it : CacheItem K) (rest : List Nat) : Cache K :=
  let b := it.hash % s.buckets
  dec_ref_item
    { s with
      queue := rest
      map := aset s.map b ((mapGet s.map b).erase id)
      cache_size := s.cache_size - contrib H it }
    id

/-- The eviction loop of `ass_cache_cut` (lines 719-750), with the evicted
items' headers (as read at eviction time) returned alongside the state.
`fuel` is the entry queue length; the loop pops one head per iteration. -/
def cutLoop {K : Type} (H maxSize : Nat) :
    Nat → Cache K → Cache K × List (Nat × CacheItem K)
  | 0, s => (s, [])
  | fuel + 1, s =>
    if s.cache_size ≤ maxSize then (s, [])
    else
      match s.queue with
      | [] => (s, [])
      | id :: rest =>
        match alook s.items id with
        | none => (s, [])
        | some it =>
          if it.last_used_frame = s.cur_frame then (s, [])
          else
            let r := cutLoop H maxSize fuel (evictHead H s id it rest)
            (r.1, (id, it) :: r.2)

/-- The promote-list drain of `ass_cache_cut` (lines 698-717): each
promoted item is unlinked from its current queue position and re-linked at
the queue tail. -/
def promoteDrain : List Nat → List Nat → List Nat
  | q, [] => q
  | q, id :: rest => promoteDrain (q.erase id ++ [id]) rest

/-- `ass_cache_cut`: drain every client's promote list into the queue,
evict from the queue head while over budget (stopping at the first item
used this frame), then advance the frame counter.  The second component
lists the evicted items with the headers they had when evicted. -/
def ass_cache_cut {K : Type} (H : Nat) (s : Cache K) (maxSize : Nat) :
    Cache K × List (Nat × CacheItem K) :=
  let s1 := { s with queue := promoteDrain s.queue (promoteAll s), promote := [] }
  let r := cutLoop H maxSize s1.queue.length s1
  ({ r.1 with cur_frame := r.1.cur_frame + 1 }, r.2)

/-- Release of one bucket chain inside `ass_cache_empty` (lines 758-774):
subtract each item's contribution and drop the queue-held reference. -/
def emptyChain {K : Type} (H : Nat) : List Nat → Cache K → Cache K
  | [], s => s
  | id :: rest, s =>
    match alook s.items id with
    | none => emptyChain H rest s
    | some it =>
      emptyChain H rest
        (dec_ref_item { s with cache_size := s.cache_size - contrib H it } id)

/-- `ass_cache_empty` (lines 755-789): walk every bucket releasing its
items, then reset the bucket array, the queue (`queue_first = NULL`,
`queue_last = &queue_first`), the size counter and every client's promote
list. -/
def ass_cache_empty {K : Type} (H : Nat) (s : Cache K) : Cache K :=
  let s1 := (s.map.map Prod.snd).foldl (fun acc chain => emptyChain H chain acc) s
  { s1 with map := [], queue := [], cache_size := 0, promote := [] }

/-- `ass_cache_done`: empty the cache and free it; modelled by the
`shutdown` flag (outstanding handles stay valid in `items`). -/
def ass_cache_done {K : Type} (H : Nat) (s : Cache K) : Cache K :=
  { ass_cache_empty H s with shutdown := true }

/-!
## Value/key address arithmetic (`align_cache`, `ass_cache_key`)

Addresses are modelled as natural numbers; `size_t` arithmetic is taken
modulo `2^64`.
-/

/-- `align_cache` (line 425-428): `(size + (CACHE_ALIGN-1)) & ~(CACHE_ALIGN-1)`
with `CACHE_ALIGN = 8` on a 64-bit `size_t`; masking with `~7` clears the
three low bits, i.e. subtracts the remainder mod 8. -/
def align_cache (size : Nat) : Nat :=
  (size + 7) % 2 ^ 64 - (size + 7) % 2 ^ 64 % 8

/-- `value_to_item` (line 430-433): the header sits `CACHE_ITEM_SIZE` bytes
before the value slot. -/
def value_to_item (itemSize value : Nat) : Nat :=
  value - itemSize

/-- `ass_cache_key` (lines 657-661): the key slot follows the value slot at
offset `align_cache(value_size)`. -/
def ass_cache_key_addr {K : Type} (desc : CacheDesc K) (value : Nat) : Nat :=
  value + align_cache desc.value_size

/-- The key-slot offset from the item header used by `ass_cache_get`
(line 541): `CACHE_ITEM_SIZE + align_cache(value_size)`. -/
def key_offs {K : Type} (desc : CacheDesc K) (itemSize : Nat) : Nat :=
  itemSize + align_cache desc.value_size

/-!
## The lock-free CAS retry loop of `ass_cache_get` (lines 551-626)

Concurrency is modelled by an interference trace: the list of bucket-chain
states observed at each failed head CAS.  Chain items carry their id, their
stored hash and their stored key.
-/

/-- An item as seen in a bucket chain by the retry loop. -/
structure RItem (K : Type) where
  id : Nat
  hash : Nat
  key : K
deriving DecidableEq

/-- Id of the chain head, `none` for an empty (NULL-headed) chain. -/
def headId {K : Type} : List (RItem K) → Option Nat
  | [] => none
  | it :: _ => some it.id

/-- The plain scan (no `stop_at`) over a chain. -/
def scanFirst {K : Type} (desc : CacheDesc K) (key : K) (hash : Nat) :
    List (RItem K) → Option Nat
  | [] => none
  | it :: rest =>
    if it.hash = hash ∧ desc.compare_func key it.key = true then some it.id
    else scanFirst desc key hash rest

/-- The scan of lines 552-555: `for (item = start; item && item != stop_at;
item = item->next)` — the walk ends (without a match) on reaching the
`stop_at` item or the NULL tail. -/
def scanStop {K : Type} (desc : CacheDesc K) (key : K) (hash : Nat)
    (stopAt : Option Nat) : List (RItem K) → Option Nat
  | [] => none
  | it :: rest =>
    if some it.id = stopAt then none
    else if it.hash = hash ∧ desc.compare_func key it.key = true then some it.id
    else scanStop desc key hash stopAt rest

/-- Outcome of the CAS retry loop once a new item is prepared: either the
CAS succeeds and the prepared item becomes the new bucket head, or a rescan
finds a matching item inserted by a rival, in which case the prepared item
is discarded (`free(new_item)`) after its stored key is released
(`key_destruct_func`). -/
inductive CasOutcome (K : Type) where
  | inserted (finalChain : List (RItem K))
  | foundExisting (id : Nat) (preparedDiscarded storedKeyReleased : Bool)
deriving DecidableEq

/-- The CAS retry loop (lines 621-626 looping back to 551): `observed` is
the chain the previous CAS compared against; `interference` lists the chain
found by each failed CAS in turn (an empty trace means the next CAS
succeeds).  On a failed CAS the chain is rescanned with `stop_at` set to
the previously observed head; a match ends the call on the rival's item
with the prepared item discarded and its stored key released, otherwise the
CAS is retried against the newly observed chain. -/
def casRetry {K : Type} (desc : CacheDesc K) (key : K) (hash : Nat)
    (newItem : RItem K) :
    List (RItem K) → List (List (RItem K)) → CasOutcome K
  | observed, [] => CasOutcome.inserted (newItem :: observed)
  | observed, newChain :: rest =>
    match scanStop desc key hash (headId observed) newChain with
    | some id => CasOutcome.foundExisting id true true
    | none => casRetry desc key hash newItem newChain rest

/-!
## Association-list lemmas
-/

theorem alook_aset_self {A : Type} (m : List (Nat × A)) (k : Nat) (v : A) :
    alook (aset m k v) k = some v := by
  induction m with
  | nil => simp [aset, alook]
  | cons p rest ih =>
    obtain ⟨k', v'⟩ := p
    by_cases h : k' = k
    · simp [aset, h, alook]
    · simp [aset, h, alook, ih]

theorem alook_aset_ne {A : Type} (m : List (Nat × A)) (k k' : Nat) (v : A)
    (h : k ≠ k') : alook (aset m k v) k' = alook m k' := by
  induction m with
  | nil => simp [aset, alook, h]
  | cons p rest ih =>
    obtain ⟨k0, v0⟩ := p
    by_cases h0 : k0 = k
    · subst h0
      simp [aset, alook, h]
    · by_cases h1 : k0 = k'
      · simp [aset, h0, alook, h1, Ne.symm h]
      · simp [aset, h0, alook, h1, ih]

theorem alook_aerase_self {A : Type} (m : List (Nat × A)) (k : Nat) :
    alook (aerase m k) k = none := by
  induction m with
  | nil => simp [aerase, alook]
  | cons p rest ih =>
    obtain ⟨k0, v0⟩ := p
    by_cases h0 : k0 = k
    · simpa [aerase, h0] using ih
    · simpa [aerase, alook, h0] using ih

theorem alook_aerase_ne {A : Type} (m : List (Nat × A)) (k k' : Nat)
    (h : k ≠ k') : alook (aerase m k) k' = alook m k' := by
  induction m with
  | nil => simp [aerase, alook]
  | cons p rest ih =>
    obtain ⟨k0, v0⟩ := p
    by_cases h0 : k0 = k
    · subst h0
      have hb : (k0 != k0) = false := by simp
      show alook (List.filter (fun p => p.1 != k0) ((k0, v0) :: rest)) k' = _
      rw [List.filter_cons]
      simp only [hb, Bool.false_eq_true, if_false]
      rw [show alook ((k0, v0) :: rest) k' = alook rest k' by simp [alook, h]]
      exact ih
    · have hb : (k0 != k) = true := by simpa using h0
      show alook (List.filter (fun p => p.1 != k) ((k0, v0) :: rest)) k' = _
      rw [List.filter_cons]
      simp only [hb, if_true]
      by_cases h1 : k0 = k'
      · simp [alook, h1]
      · simp [alook, h1]
        exact ih

theorem mapGet_aset_self (m : List (Nat × List Nat)) (b : Nat)
    (ch : List Nat) : mapGet (aset m b ch) b = ch := by
  simp [mapGet, alook_aset_self]

theorem mapGet_aset_ne (m : List (Nat × List Nat)) (b b' : Nat)
    (ch : List Nat) (h : b ≠ b') : mapGet (aset m b ch) b' = mapGet m b' := by
  simp [mapGet, alook_aset_ne m b b' ch h]

theorem alook_isSome_iff_mem {A : Type} (m : List (Nat × A)) (k : Nat) :
    (alook m k).isSome ↔ k ∈ m.map Prod.fst := by
  induction m with
  | nil => simp [alook]
  | cons p rest ih =>
    obtain ⟨k0, v0⟩ := p
    by_cases h0 : k0 = k
    · simp [alook, h0]
    · simp [alook, h0, ih, Ne.symm h0]

theorem alook_mem_of_some {A : Type} (m : List (Nat × A)) (k : Nat) (v : A)
    (h : alook m k = some v) : k ∈ m.map Prod.fst := by
  have := (alook_isSome_iff_mem m k).mp (by simp [h])
  exact this

/-!
## Concrete instances used to witness theorems with hypotheses
-/

/-- A lawful descriptor over `Nat` keys: identity hash, structural
equality, unit-size constructor (overhead opt-out). -/
def desc0 : CacheDesc Nat :=
  { hash_func := fun k => k
    compare_func := fun a b => a == b
    construct_func := fun _ => 1
    key_size := 8
    value_size := 8 }

/-- A descriptor whose constructor reports size 10 (counted overhead). -/
def desc10 : CacheDesc Nat :=
  { hash_func := fun k => k
    compare_func := fun a b => a == b
    construct_func := fun _ => 10
    key_size := 8
    value_size := 16 }

/-!
## Claim C7: the CAS-failure rescan
-/

/-- On a prepend-only interference pattern — the newly observed chain is
`pre ++ prev` with `prev` the previously observed chain — the stopped scan
looks at exactly the new prefix `pre` and never walks into `prev`. -/
theorem scanStop_append_prefix {K : Type} (desc : CacheDesc K) (key : K)
    (hash : Nat) (pre prev : List (RItem K))
    (hfresh : ∀ it ∈ pre, some it.id ≠ headId prev) :
    scanStop desc key hash (headId prev) (pre ++ prev) =
      scanFirst desc key hash pre := by
  induction pre with
  | nil =>
    simp only [List.nil_append, scanFirst]
    cases prev with
    | nil => simp [scanStop]
    | cons x rest => simp [scanStop, headId]
  | cons it rest ih =>
    have h1 : some it.id ≠ headId prev := hfresh it (by simp)
    simp only [List.cons_append, scanStop, scanFirst, h1, if_false]
    by_cases hm : it.hash = hash ∧ desc.compare_func key it.key = true
    · simp [hm]
    · simp only [hm, if_false]
      exact ih (fun x hx => hfresh x (by simp [hx]))

/-- C7: when the bucket-head CAS fails because rivals prepended `pre` onto
the previously observed chain `prev`, the rescan examines only the new
prefix `pre` (it stops on reaching the old head); if that prefix holds a
match, the call ends on the existing item with the prepared item discarded
after its stored key is released, and otherwise the CAS is retried against
the newly observed chain. -/
theorem thm_C7_cas_rescan {K : Type} (desc : CacheDesc K) (key : K)
    (hash : Nat) (newItem : RItem K) (pre prev : List (RItem K))
    (rest : List (List (RItem K)))
    (hfresh : ∀ it ∈ pre, some it.id ≠ headId prev) :
    scanStop desc key hash (headId prev) (pre ++ prev) =
      scanFirst desc key hash pre ∧
    casRetry desc key hash newItem prev ((pre ++ prev) :: rest) =
      (match scanFirst desc key hash pre with
       | some id => CasOutcome.foundExisting id true true
       | none => casRetry desc key hash newItem (pre ++ prev) rest) := by
  have h1 := scanStop_append_prefix desc key hash pre prev hfresh
  refine ⟨h1, ?_⟩
  show (match scanStop desc key hash (headId prev) (pre ++ prev) with
        | some id => CasOutcome.foundExisting id true true
        | none => casRetry desc key hash newItem (pre ++ prev) rest) = _
  rw [h1]

/-- Witness for C7: rival inserted an item with id 2 and key 5 in front of
the old head (id 1); the rescan finds it. -/
theorem thm_C7_cas_rescan_witness :
    (∀ it ∈ [RItem.mk 2 5 5], some it.id ≠ headId [RItem.mk 1 9 9]) ∧
    (scanStop desc0 5 5 (headId [RItem.mk 1 9 9])
        ([RItem.mk 2 5 5] ++ [RItem.mk 1 9 9]) = scanFirst desc0 5 5 [RItem.mk 2 5 5] ∧
     casRetry desc0 5 5 (RItem.mk 3 5 5) [RItem.mk 1 9 9]
        (([RItem.mk 2 5 5] ++ [RItem.mk 1 9 9]) :: []) =
       (match scanFirst desc0 5 5 [RItem.mk 2 5 5] with
        | some id => CasOutcome.foundExisting id true true
        | none => casRetry desc0 5 5 (RItem.mk 3 5 5) ([RItem.mk 2 5 5] ++ [RItem.mk 1 9 9]) [])) :=
  ⟨by decide, thm_C7_cas_rescan desc0 5 5 (RItem.mk 3 5 5) [RItem.mk 2 5 5]
      [RItem.mk 1 9 9] [] (by decide)⟩

/-!
## Claim C8: allocation / key-move failure
-/

/-- C8: when the miss path hits an allocation failure, or the key move into
the fresh item's key slot fails, `get` returns NULL, `key_move(NULL, key)`
is invoked on the transient input key, and the cache state — resident
items, sizes, frame counter, everything — is exactly unchanged. -/
theorem thm_C8_failure_paths {K : Type} (desc : CacheDesc K)
    (H client : Nat) (key : K) (s : Cache K)
    (hmiss : scanChain desc s.items key (desc.hash_func key)
      (mapGet s.map (desc.hash_func key % s.buckets)) = none)
    (mOk : Bool) :
    ass_cache_get desc H client key false mOk s =
      { value := none, state := s, events := [KeyEvent.moveNull] } ∧
    ass_cache_get desc H client key true false s =
      { value := none, state := s, events := [KeyEvent.moveNull] } := by
  constructor
  · show (match scanChain desc s.items key (desc.hash_func key)
        (mapGet s.map (desc.hash_func key % s.buckets)) with
      | some id => _
      | none => _) = _
    rw [hmiss]
    rfl
  · show (match scanChain desc s.items key (desc.hash_func key)
        (mapGet s.map (desc.hash_func key % s.buckets)) with
      | some id => _
      | none => _) = _
    rw [hmiss]
    rfl

/-- Witness for C8: failing `get` on an empty cache. -/
theorem thm_C8_failure_paths_witness :
    scanChain desc0 (ass_cache_create Nat).items 5 (desc0.hash_func 5)
      (mapGet (ass_cache_create Nat).map (desc0.hash_func 5 % (ass_cache_create Nat).buckets)) = none ∧
    (ass_cache_get desc0 96 0 5 false true (ass_cache_create Nat) =
      { value := none, state := ass_cache_create Nat, events := [KeyEvent.moveNull] } ∧
     ass_cache_get desc0 96 0 5 true false (ass_cache_create Nat) =
      { value := none, state := ass_cache_create Nat, events := [KeyEvent.moveNull] }) :=
  ⟨by decide, thm_C8_failure_paths desc0 96 0 5 (ass_cache_create Nat) (by decide) true⟩

/-!
## Unfolding equations for the two paths of `ass_cache_get`
-/

/-- The miss path of `ass_cache_get` as one equation. -/
theorem ass_cache_get_miss_eq {K : Type} (desc : CacheDesc K)
    (H client : Nat) (key : K) (s : Cache K)
    (hmiss : scanChain desc s.items key (desc.hash_func key)
      (mapGet s.map (desc.hash_func key % s.buckets)) = none) :
    ass_cache_get desc H client key true true s =
      { value := some (insertNewItem desc key s).1
        state :=
          { finishConstruct H (insertNewItem desc key s).1
              (desc.construct_func key) (insertNewItem desc key s).2 with
            construct_log := key :: s.construct_log }
        events := [KeyEvent.movedInto] } := by
  unfold ass_cache_get
  rw [hmiss]
  rfl

/-- The hit path of `ass_cache_get` as one equation. -/
theorem ass_cache_get_hit_eq {K : Type} (desc : CacheDesc K)
    (H client : Nat) (key : K) (s : Cache K) (id : Nat) (it : CacheItem K)
    (aOk mOk : Bool)
    (hscan : scanChain desc s.items key (desc.hash_func key)
      (mapGet s.map (desc.hash_func key % s.buckets)) = some id)
    (hid : alook s.items id = some it) :
    ass_cache_get desc H client key aOk mOk s =
      { value := some id
        state := getHit client s id it
        events := [KeyEvent.moveNull] } := by
  unfold ass_cache_get
  rw [hscan]
  show (match alook s.items id with
    | none => ({ value := none, state := s, events := [] } : GetResult K)
    | some it =>
      { value := some id
        state := getHit client s id it
        events := [KeyEvent.moveNull] }) = _
  rw [hid]

/-- Looking up the freshly prepared item after `finishConstruct`. -/
theorem finishConstruct_alook_self {K : Type} (H id size : Nat)
    (s : Cache K) (it : CacheItem K) (h : alook s.items id = some it) :
    alook (finishConstruct H id size s).items id = some { it with size := size } := by
  unfold finishConstruct
  rw [h]
  show alook (aset s.items id { it with size := size }) id = _
  rw [alook_aset_self]

/-!
## Claim C6: miss-path item preparation and size publication
-/

/-- C6: on a miss, the published item has `size = 0`, `ref_count = 1`,
`last_used_frame = cur_frame` and the caller's key moved into its key slot,
and it is linked at its bucket head and at the queue tail; that is exactly
the state in which the constructor is invoked, and only after the
constructor returns is its reported size (required to be at least 1 by
`assert(size)`, whence the `hpos` hypothesis) stored into the item. -/
theorem thm_C6_miss_prepares_item {K : Type} (desc : CacheDesc K)
    (H client : Nat) (key : K) (s : Cache K)
    (hmiss : scanChain desc s.items key (desc.hash_func key)
      (mapGet s.map (desc.hash_func key % s.buckets)) = none)
    (hpos : 1 ≤ desc.construct_func key) :
    alook (insertNewItem desc key s).2.items (insertNewItem desc key s).1 =
      some { key := key, hash := desc.hash_func key, size := 0,
             ref_count := 1, last_used_frame := s.cur_frame } ∧
    (insertNewItem desc key s).1 ∈
      mapGet (insertNewItem desc key s).2.map (desc.hash_func key % s.buckets) ∧
    (insertNewItem desc key s).2.queue = s.queue ++ [(insertNewItem desc key s).1] ∧
    (ass_cache_get desc H client key true true s).value =
      some (insertNewItem desc key s).1 ∧
    alook (ass_cache_get desc H client key true true s).state.items
        (insertNewItem desc key s).1 =
      some { key := key, hash := desc.hash_func key,
             size := desc.construct_func key,
             ref_count := 1, last_used_frame := s.cur_frame } := by
  have h0 : alook (insertNewItem desc key s).2.items s.next_id =
      some (prepareItem desc key s.cur_frame) := by
    show alook (aset s.items s.next_id (prepareItem desc key s.cur_frame)) s.next_id = _
    rw [alook_aset_self]
  refine ⟨?_, ?_, ?_, ?_, ?_⟩
  · exact h0
  · show s.next_id ∈ mapGet (aset s.map (desc.hash_func key % s.buckets)
      (s.next_id :: mapGet s.map (desc.hash_func key % s.buckets))) (desc.hash_func key % s.buckets)
    rw [mapGet_aset_self]
    simp
  · rfl
  · rw [ass_cache_get_miss_eq desc H client key s hmiss]
  · rw [ass_cache_get_miss_eq desc H client key s hmiss]
    show alook (finishConstruct H s.next_id
      (desc.construct_func key) (insertNewItem desc key s).2).items s.next_id = _
    rw [finishConstruct_alook_self _ _ _ _ _ h0]
    rfl

/-- Witness for C6: a miss on an empty cache with `desc10`. -/
theorem thm_C6_miss_prepares_item_witness :
    (scanChain desc10 (ass_cache_create Nat).items 5 (desc10.hash_func 5)
      (mapGet (ass_cache_create Nat).map (desc10.hash_func 5 % (ass_cache_create Nat).buckets)) = none ∧
     1 ≤ desc10.construct_func 5) ∧
    (alook (insertNewItem desc10 5 (ass_cache_create Nat)).2.items
        (insertNewItem desc10 5 (ass_cache_create Nat)).1 =
      some { key := 5, hash := desc10.hash_func 5, size := 0,
             ref_count := 1, last_used_frame := (ass_cache_create Nat).cur_frame } ∧
     (insertNewItem desc10 5 (ass_cache_create Nat)).1 ∈
      mapGet (insertNewItem desc10 5 (ass_cache_create Nat)).2.map
        (desc10.hash_func 5 % (ass_cache_create Nat).buckets) ∧
     (insertNewItem desc10 5 (ass_cache_create Nat)).2.queue =
      (ass_cache_create Nat).queue ++ [(insertNewItem desc10 5 (ass_cache_create Nat)).1] ∧
     (ass_cache_get desc10 96 0 5 true true (ass_cache_create Nat)).value =
      some (insertNewItem desc10 5 (ass_cache_create Nat)).1 ∧
     alook (ass_cache_get desc10 96 0 5 true true (ass_cache_create Nat)).state.items
        (insertNewItem desc10 5 (ass_cache_create Nat)).1 =
      some { key := 5, hash := desc10.hash_func 5,
             size := desc10.construct_func 5,
             ref_count := 1, last_used_frame := (ass_cache_create Nat).cur_frame }) :=
  ⟨⟨by decide, by decide⟩,
   thm_C6_miss_prepares_item desc10 96 0 5 (ass_cache_create Nat) (by decide) (by decide)⟩

/-!
## Claim C10: post-state of `ass_cache_empty`
-/

/-- C10: after `empty`, every bucket head is NULL, the queue is empty
(`queue_first = NULL` and `queue_last = &queue_first`, which the list model
renders as the empty queue), the size counter is zero, and every client's
promote list is cleared; a subsequent `cut` finds nothing to drain or evict
and just advances the frame, and a subsequent `get` runs as a clean miss on
the empty table. -/
theorem thm_C10_empty_resets {K : Type} (desc : CacheDesc K)
    (H M client : Nat) (key : K) (s : Cache K) :
    (ass_cache_empty H s).map = [] ∧
    (∀ b, mapGet (ass_cache_empty H s).map b = []) ∧
    allChainIds (ass_cache_empty H s) = [] ∧
    (ass_cache_empty H s).queue = [] ∧
    (ass_cache_empty H s).cache_size = 0 ∧
    (ass_cache_empty H s).promote = [] ∧
    (∀ c, promGet (ass_cache_empty H s).promote c = []) ∧
    (ass_cache_cut H (ass_cache_empty H s) M).2 = [] ∧
    (ass_cache_cut H (ass_cache_empty H s) M).1.queue = [] ∧
    (ass_cache_cut H (ass_cache_empty H s) M).1.cache_size = 0 ∧
    (ass_cache_cut H (ass_cache_empty H s) M).1.cur_frame =
      (ass_cache_empty H s).cur_frame + 1 ∧
    (ass_cache_get desc H client key true true (ass_cache_empty H s)).value =
      some (ass_cache_empty H s).next_id := by
  refine ⟨rfl, ?_, rfl, rfl, rfl, rfl, ?_, rfl, rfl, rfl, rfl, ?_⟩
  · intro b
    rfl
  · intro c
    rfl
  · have hmiss : scanChain desc (ass_cache_empty H s).items key
        (desc.hash_func key)
        (mapGet (ass_cache_empty H s).map
          (desc.hash_func key % (ass_cache_empty H s).buckets)) = none := rfl
    rw [ass_cache_get_miss_eq desc H client key (ass_cache_empty H s) hmiss]
    rfl

/-!
## Claim C9: `ass_cache_key` layout arithmetic and key fidelity
-/

/-- `align_cache` rounds up to the next multiple of 8. -/
theorem align_cache_dvd (size : Nat) : 8 ∣ align_cache size := by
  unfold align_cache
  have h := Nat.div_add_mod ((size + 7) % 2 ^ 64) 8
  exact ⟨(size + 7) % 2 ^ 64 / 8, by omega⟩

/-- For sizes that do not overflow `size_t`, `align_cache` is the least
multiple of 8 at or above `size`. -/
theorem align_cache_bounds (size : Nat) (h : size + 7 < 2 ^ 64) :
    size ≤ align_cache size ∧ align_cache size < size + 8 := by
  unfold align_cache
  rw [Nat.mod_eq_of_lt h]
  have h8 : (size + 7) % 8 < 8 := Nat.mod_lt _ (by omega)
  omega

/-- C9: `ass_cache_key(v)` is computed purely by pointer arithmetic — `v`
plus the 8-byte-aligned value size — and for the value slot of the item at
base `a` (so `v = a + CACHE_ITEM_SIZE`) it lands exactly on the key slot
`a + key_offs` into which `ass_cache_get` moved the caller's key; the
stored key compares equal (with equal stored hash) to the key passed to
the `get` that created the item, given a reflexive descriptor comparison. -/
theorem thm_C9_key_of_value {K : Type} (desc : CacheDesc K)
    (H client a : Nat) (key : K) (s : Cache K)
    (hmiss : scanChain desc s.items key (desc.hash_func key)
      (mapGet s.map (desc.hash_func key % s.buckets)) = none)
    (hrefl : desc.compare_func key key = true) :
    ass_cache_key_addr desc (a + H) = a + key_offs desc H ∧
    8 ∣ align_cache desc.value_size ∧
    (desc.value_size + 7 < 2 ^ 64 →
      desc.value_size ≤ align_cache desc.value_size ∧
      align_cache desc.value_size < desc.value_size + 8) ∧
    (ass_cache_get desc H client key true true s).value = some s.next_id ∧
    (∃ it, alook (ass_cache_get desc H client key true true s).state.items
        s.next_id = some it ∧
      desc.compare_func key it.key = true ∧
      desc.hash_func it.key = desc.hash_func key ∧
      it.hash = desc.hash_func key) := by
  refine ⟨?_, align_cache_dvd _, align_cache_bounds _, ?_, ?_⟩
  · show a + H + align_cache desc.value_size = a + (H + align_cache desc.value_size)
    omega
  · rw [ass_cache_get_miss_eq desc H client key s hmiss]
    rfl
  · have h0 : alook (insertNewItem desc key s).2.items s.next_id =
        some (prepareItem desc key s.cur_frame) := by
      show alook (aset s.items s.next_id (prepareItem desc key s.cur_frame)) s.next_id = _
      rw [alook_aset_self]
    refine ⟨{ prepareItem desc key s.cur_frame with size := desc.construct_func key }, ?_, hrefl, rfl, rfl⟩
    rw [ass_cache_get_miss_eq desc H client key s hmiss]
    show alook (finishConstruct H s.next_id
      (desc.construct_func key) (insertNewItem desc key s).2).items s.next_id = _
    rw [finishConstruct_alook_self _ _ _ _ _ h0]

/-- Witness for C9. -/
theorem thm_C9_key_of_value_witness :
    (scanChain desc10 (ass_cache_create Nat).items 5 (desc10.hash_func 5)
      (mapGet (ass_cache_create Nat).map (desc10.hash_func 5 % (ass_cache_create Nat).buckets)) = none ∧
     desc10.compare_func 5 5 = true) ∧
    (ass_cache_key_addr desc10 (1024 + 96) = 1024 + key_offs desc10 96 ∧
     8 ∣ align_cache desc10.value_size ∧
     (desc10.value_size + 7 < 2 ^ 64 →
       desc10.value_size ≤ align_cache desc10.value_size ∧
       align_cache desc10.value_size < desc10.value_size + 8) ∧
     (ass_cache_get desc10 96 0 5 true true (ass_cache_create Nat)).value =
       some (ass_cache_create Nat).next_id ∧
     (∃ it, alook (ass_cache_get desc10 96 0 5 true true (ass_cache_create Nat)).state.items
         (ass_cache_create Nat).next_id = some it ∧
       desc10.compare_func 5 it.key = true ∧
       desc10.hash_func it.key = desc10.hash_func 5 ∧
       it.hash = desc10.hash_func 5)) :=
  ⟨⟨by decide, by decide⟩,
   thm_C9_key_of_value desc10 96 0 1024 5 (ass_cache_create Nat) (by decide) (by decide)⟩

/-!
## Claim C1 (corrected): the hit path does not add a reference
-/

/-- Counterexample to C1 as stated: `get(5)` on a fresh cache creates item
0 with `ref_count = 1`; a second `get(5)` hits and returns the same value
pointer, yet `ref_count` is still 1 afterwards — the hit path of
`ass_cache_get` never increments the reference count, so the returned
handle does not carry a reference of its own. -/
theorem thm_C1_counterexample :
    (alook (ass_cache_get desc0 96 0 5 true true (ass_cache_create Nat)).state.items 0).map
        CacheItem.ref_count = some 1 ∧
    (ass_cache_get desc0 96 0 5 true true
        (ass_cache_get desc0 96 0 5 true true (ass_cache_create Nat)).state).value = some 0 ∧
    (alook (ass_cache_get desc0 96 0 5 true true
        (ass_cache_get desc0 96 0 5 true true (ass_cache_create Nat)).state).state.items 0).map
        CacheItem.ref_count = some 1 := by
  decide

/-- C1 amended: a `get` hit returns the value pointer of the matching item
without changing any reference count; a freshly constructed item starts
with `ref_count = 1`, which is the cache structure's own reference (later
dropped by eviction or `empty`, not by the caller); `inc_ref` adds exactly
one and `dec_ref` removes exactly one, destroying the item when the count
reaches zero.  Hence the number of `dec_ref` calls needed to release a
value equals the number of `inc_ref` calls that observed it, plus the one
structural release performed by the cache itself — `get` returns contribute
nothing. -/
theorem thm_C1_amended {K : Type} (desc : CacheDesc K)
    (H client j id id2 : Nat) (k1 k2 : K) (s : Cache K)
    (it it2 : CacheItem K)
    (hid : alook s.items id = some it)
    (hid2 : alook s.items id2 = some it2)
    (h2 : 2 ≤ it.ref_count)
    (h1 : it2.ref_count = 1)
    (hscan : scanChain desc s.items k1 (desc.hash_func k1)
      (mapGet s.map (desc.hash_func k1 % s.buckets)) = some id)
    (hmiss : scanChain desc s.items k2 (desc.hash_func k2)
      (mapGet s.map (desc.hash_func k2 % s.buckets)) = none) :
    (ass_cache_get desc H client k1 true true s).value = some id ∧
    ((alook (ass_cache_get desc H client k1 true true s).state.items j).map
        CacheItem.ref_count = (alook s.items j).map CacheItem.ref_count) ∧
    ((alook (ass_cache_get desc H client k2 true true s).state.items s.next_id).map
        CacheItem.ref_count = some 1) ∧
    ((alook (ass_cache_inc_ref s id).items id).map CacheItem.ref_count =
        some (it.ref_count + 1)) ∧
    ((alook (ass_cache_dec_ref s id).items id).map CacheItem.ref_count =
        some (it.ref_count - 1)) ∧
    (alook (ass_cache_dec_ref s id2).items id2 = none ∧
      (ass_cache_dec_ref s id2).destroy_log = id2 :: s.destroy_log) := by
  refine ⟨?_, ?_, ?_, ?_, ?_, ?_, ?_⟩
  · rw [ass_cache_get_hit_eq desc H client k1 s id it true true hscan hid]
  · rw [ass_cache_get_hit_eq desc H client k1 s id it true true hscan hid]
    show (alook (getHit client s id it).items j).map CacheItem.ref_count = _
    unfold getHit
    by_cases hf : it.last_used_frame = s.cur_frame
    · rw [if_pos hf]
    · rw [if_neg hf]
      show (alook (aset s.items id { it with last_used_frame := s.cur_frame }) j).map
        CacheItem.ref_count = _
      by_cases hj : id = j
      · subst hj
        rw [alook_aset_self, hid]
        rfl
      · rw [alook_aset_ne s.items id j _ hj]
  · rw [ass_cache_get_miss_eq desc H client k2 s hmiss]
    have h0 : alook (insertNewItem desc k2 s).2.items s.next_id =
        some (prepareItem desc k2 s.cur_frame) := by
      show alook (aset s.items s.next_id (prepareItem desc k2 s.cur_frame)) s.next_id = _
      rw [alook_aset_self]
    show (alook (finishConstruct H s.next_id
      (desc.construct_func k2) (insertNewItem desc k2 s).2).items s.next_id).map
      CacheItem.ref_count = _
    rw [finishConstruct_alook_self _ _ _ _ _ h0]
    rfl
  · unfold ass_cache_inc_ref
    rw [hid]
    show (alook (aset s.items id { it with ref_count := it.ref_count + 1 }) id).map
      CacheItem.ref_count = _
    rw [alook_aset_self]
    rfl
  · unfold ass_cache_dec_ref dec_ref_item
    simp only [hid]
    have hz : ¬ it.ref_count - 1 = 0 := by omega
    rw [if_neg hz]
    show (alook (aset s.items id { it with ref_count := it.ref_count - 1 }) id).map
      CacheItem.ref_count = _
    rw [alook_aset_self]
    rfl
  · unfold ass_cache_dec_ref dec_ref_item
    simp only [hid2]
    have hz : it2.ref_count - 1 = 0 := by omega
    rw [if_pos hz]
    show alook (aerase s.items id2) id2 = none
    exact alook_aerase_self _ _
  · unfold ass_cache_dec_ref dec_ref_item
    simp only [hid2]
    have hz : it2.ref_count - 1 = 0 := by omega
    rw [if_pos hz]

/-- Witness for the amended C1, on a hand-built two-item state: item 0
(key 3, count 2) in bucket 3, item 1 (key 4, count 1) in bucket 4; `get 3`
hits item 0, `get 7` misses. -/
theorem thm_C1_amended_witness :
    (alook [(0, CacheItem.mk 3 3 1 2 0), (1, CacheItem.mk 4 4 1 1 0)] 0 =
        some (CacheItem.mk 3 3 1 2 0) ∧
     alook [(0, CacheItem.mk 3 3 1 2 0), (1, CacheItem.mk 4 4 1 1 0)] 1 =
        some (CacheItem.mk 4 4 1 1 0) ∧
     2 ≤ (CacheItem.mk 3 3 1 2 0 : CacheItem Nat).ref_count ∧
     (CacheItem.mk 4 4 1 1 0 : CacheItem Nat).ref_count = 1) ∧
    ((ass_cache_get desc0 96 0 3 true true
        { ass_cache_create Nat with
          items := [(0, CacheItem.mk 3 3 1 2 0), (1, CacheItem.mk 4 4 1 1 0)],
          map := [(3, [0]), (4, [1])], queue := [0, 1], next_id := 2,
          cache_size := 2 }).value = some 0) := by
  refine ⟨⟨by decide, by decide, by decide, by decide⟩, ?_⟩
  exact (thm_C1_amended desc0 96 0 0 0 1 3 7
    { ass_cache_create Nat with
      items := [(0, CacheItem.mk 3 3 1 2 0), (1, CacheItem.mk 4 4 1 1 0)],
      map := [(3, [0]), (4, [1])], queue := [0, 1], next_id := 2,
      cache_size := 2 }
    (CacheItem.mk 3 3 1 2 0) (CacheItem.mk 4 4 1 1 0)
    (by decide) (by decide) (by decide) (by decide) (by decide) (by decide)).1

/-!
## Claim C3 (corrected): destruction on zero count is unconditional
-/

/-- Counterexample to C3 as stated: `get(5)` on a fresh cache, a first
`cut(0)` that retains the item (used this frame) and advances the frame,
then a second `cut(0)` that evicts it.  The eviction's `dec_ref` brings the
count from 1 to 0 and `dec_ref_item` destructs the item immediately even
though the cache has not been shut down (`shutdown = false`) — the code
has no "no map" check at all, so destruction on a zero count is not
conditional on shutdown as the claim states. -/
theorem thm_C3_counterexample :
    ((ass_cache_cut 96 (ass_cache_cut 96
        (ass_cache_get desc0 96 0 5 true true (ass_cache_create Nat)).state 0).1 0).1.shutdown
      = false) ∧
    ((ass_cache_cut 96 (ass_cache_cut 96
        (ass_cache_get desc0 96 0 5 true true (ass_cache_create Nat)).state 0).1 0).1.destroy_log
      = [0]) ∧
    (alook (ass_cache_cut 96 (ass_cache_cut 96
        (ass_cache_get desc0 96 0 5 true true (ass_cache_create Nat)).state 0).1 0).1.items 0
      = none) := by
  decide

/-- C3 amended: when `dec_ref` brings an item's reference count to zero the
item is destructed immediately and unconditionally — whether or not the
cache has been shut down — and a later hit can never re-raise the count,
because the hit path of `get` leaves every reference count unchanged (the
count is only ever re-raised by explicit `inc_ref`). -/
theorem thm_C3_amended {K : Type} (s : Cache K) (id : Nat)
    (it : CacheItem K) (client j : Nat) (it2 : CacheItem K)
    (hid : alook s.items id = some it)
    (h1 : it.ref_count = 1)
    (hj2 : alook s.items j = some it2) :
    (alook (ass_cache_dec_ref s id).items id = none ∧
     (ass_cache_dec_ref s id).destroy_log = id :: s.destroy_log) ∧
    (alook (ass_cache_dec_ref { s with shutdown := true } id).items id = none ∧
     (ass_cache_dec_ref { s with shutdown := true } id).destroy_log = id :: s.destroy_log) ∧
    ((alook (getHit client s j it2).items j).map CacheItem.ref_count =
      (alook s.items j).map CacheItem.ref_count) := by
  have hz : it.ref_count - 1 = 0 := by omega
  refine ⟨⟨?_, ?_⟩, ⟨?_, ?_⟩, ?_⟩
  · unfold ass_cache_dec_ref dec_ref_item
    simp only [hid]
    rw [if_pos hz]
    exact alook_aerase_self _ _
  · unfold ass_cache_dec_ref dec_ref_item
    simp only [hid]
    rw [if_pos hz]
  · unfold ass_cache_dec_ref dec_ref_item
    have hid' : alook ({ s with shutdown := true } : Cache K).items id = some it := hid
    simp only [hid']
    rw [if_pos hz]
    exact alook_aerase_self _ _
  · unfold ass_cache_dec_ref dec_ref_item
    have hid' : alook ({ s with shutdown := true } : Cache K).items id = some it := hid
    simp only [hid']
    rw [if_pos hz]
  · unfold getHit
    by_cases hf : it2.last_used_frame = s.cur_frame
    · rw [if_pos hf]
    · rw [if_neg hf]
      show (alook (aset s.items j { it2 with last_used_frame := s.cur_frame }) j).map
        CacheItem.ref_count = _
      rw [alook_aset_self, hj2]
      rfl

/-- Witness for the amended C3: destroying the only reference of item 1. -/
theorem thm_C3_amended_witness :
    (alook [(1, CacheItem.mk 4 4 1 1 0)] 1 = some (CacheItem.mk 4 4 1 1 0) ∧
     (CacheItem.mk 4 4 1 1 0 : CacheItem Nat).ref_count = 1) ∧
    (alook (ass_cache_dec_ref
        { ass_cache_create Nat with items := [(1, CacheItem.mk 4 4 1 1 0)] } 1).items 1 = none) := by
  refine ⟨⟨by decide, by decide⟩, ?_⟩
  exact (thm_C3_amended
    { ass_cache_create Nat with items := [(1, CacheItem.mk 4 4 1 1 0)] } 1
    (CacheItem.mk 4 4 1 1 0) 0 1 (CacheItem.mk 4 4 1 1 0)
    (by decide) (by decide) (by decide)).1.1

/-!
## Scan lemmas and reachability infrastructure
-/

/-- A successful scan returns a live chain member matching hash and key. -/
theorem scanChain_some {K : Type} (desc : CacheDesc K)
    (items : List (Nat × CacheItem K)) (key : K) (h : Nat)
    (chain : List Nat) (id : Nat)
    (hs : scanChain desc items key h chain = some id) :
    ∃ it, alook items id = some it ∧ id ∈ chain ∧ it.hash = h ∧
      desc.compare_func key it.key = true := by
  induction chain with
  | nil => simp [scanChain] at hs
  | cons x rest ih =>
    unfold scanChain at hs
    cases hx : alook items x with
    | none =>
      simp only [hx] at hs
      obtain ⟨it, h1, h2, h3, h4⟩ := ih hs
      exact ⟨it, h1, by simp [h2], h3, h4⟩
    | some it =>
      simp only [hx] at hs
      by_cases hm : it.hash = h ∧ desc.compare_func key it.key = true
      · rw [if_pos hm] at hs
        cases hs
        exact ⟨it, hx, by simp, hm.1, hm.2⟩
      · rw [if_neg hm] at hs
        obtain ⟨it', h1, h2, h3, h4⟩ := ih hs
        exact ⟨it', h1, by simp [h2], h3, h4⟩

/-- A failed scan rejects every live chain member. -/
theorem scanChain_none {K : Type} (desc : CacheDesc K)
    (items : List (Nat × CacheItem K)) (key : K) (h : Nat)
    (chain : List Nat)
    (hs : scanChain desc items key h chain = none) :
    ∀ id ∈ chain, ∀ it, alook items id = some it →
      ¬(it.hash = h ∧ desc.compare_func key it.key = true) := by
  induction chain with
  | nil => simp
  | cons x rest ih =>
    unfold scanChain at hs
    intro id hmem it hit
    cases hx : alook items x with
    | none =>
      simp only [hx] at hs
      rcases List.mem_cons.mp hmem with h1 | h1
      · subst h1
        rw [hx] at hit
        cases hit
      · exact ih hs id h1 it hit
    | some itx =>
      simp only [hx] at hs
      by_cases hm : itx.hash = h ∧ desc.compare_func key itx.key = true
      · rw [if_pos hm] at hs
        cases hs
      · rw [if_neg hm] at hs
        rcases List.mem_cons.mp hmem with h1 | h1
        · subst h1
          rw [hx] at hit
          cases hit
          exact hm
        · exact ih hs id h1 it hit

/-- If some live chain member matches, the scan succeeds. -/
theorem scanChain_isSome_of_mem {K : Type} (desc : CacheDesc K)
    (items : List (Nat × CacheItem K)) (key : K) (h : Nat)
    (chain : List Nat) (id : Nat) (it : CacheItem K)
    (hmem : id ∈ chain) (hit : alook items id = some it)
    (hh : it.hash = h) (hc : desc.compare_func key it.key = true) :
    ∃ id', scanChain desc items key h chain = some id' := by
  cases hs : scanChain desc items key h chain with
  | some id' => exact ⟨id', rfl⟩
  | none => exact absurd ⟨hh, hc⟩ (scanChain_none desc items key h chain hs id hmem it hit)

/-- `alook` finding a binding means the pair is in the list. -/
theorem alook_mem {A : Type} (m : List (Nat × A)) (k : Nat) (v : A)
    (h : alook m k = some v) : (k, v) ∈ m := by
  induction m with
  | nil => simp [alook] at h
  | cons p rest ih =>
    obtain ⟨k0, v0⟩ := p
    unfold alook at h
    by_cases h0 : k0 = k
    · rw [if_pos h0] at h
      cases h
      simp [h0]
    · rw [if_neg h0] at h
      simp [ih h]

/-- With nodup keys, a member pair is the `alook` result. -/
theorem alook_of_mem_nodup {A : Type} (m : List (Nat × A)) (k : Nat) (v : A)
    (hnd : (m.map Prod.fst).Nodup) (hmem : (k, v) ∈ m) : alook m k = some v := by
  induction m with
  | nil => simp at hmem
  | cons p rest ih =>
    obtain ⟨k0, v0⟩ := p
    simp only [List.map_cons, List.nodup_cons] at hnd
    rcases List.mem_cons.mp hmem with h1 | h1
    · cases h1
      simp [alook]
    · have hk : k0 ≠ k := by
        intro hk
        subst hk
        exact hnd.1 (List.mem_map.mpr ⟨(k0, v), h1, rfl⟩)
      simp only [alook, if_neg hk]
      exact ih hnd.2 h1

/-- `aset` on a cons whose head has the updated key. -/
theorem aset_cons_eq {A : Type} (k : Nat) (v0 v : A) (rest : List (Nat × A)) :
    aset ((k, v0) :: rest) k v = (k, v) :: rest := by
  simp [aset]

/-- `aset` on a cons whose head has another key. -/
theorem aset_cons_ne {A : Type} (k0 k : Nat) (v0 v : A)
    (rest : List (Nat × A)) (h : k0 ≠ k) :
    aset ((k0, v0) :: rest) k v = (k0, v0) :: aset rest k v := by
  simp [aset, h]

/-- Ids bound in `aset m k v` are those of `m` plus `k`. -/
theorem mem_keys_aset_iff {A : Type} (m : List (Nat × A)) (k : Nat) (v : A)
    (x : Nat) : x ∈ (aset m k v).map Prod.fst ↔ x ∈ m.map Prod.fst ∨ x = k := by
  induction m with
  | nil => simp [aset]
  | cons p rest ih =>
    obtain ⟨k0, v0⟩ := p
    by_cases h0 : k0 = k
    · subst h0
      rw [aset_cons_eq]
      simp only [List.map_cons, List.mem_cons]
      tauto
    · rw [aset_cons_ne k0 k v0 v rest h0]
      simp only [List.map_cons, List.mem_cons, ih]
      tauto

/-- `aset` preserves nodup keys. -/
theorem keys_aset_nodup {A : Type} (m : List (Nat × A)) (k : Nat) (v : A)
    (hnd : (m.map Prod.fst).Nodup) : ((aset m k v).map Prod.fst).Nodup := by
  induction m with
  | nil => simp [aset]
  | cons p rest ih =>
    obtain ⟨k0, v0⟩ := p
    simp only [List.map_cons, List.nodup_cons] at hnd
    by_cases h0 : k0 = k
    · subst h0
      rw [aset_cons_eq]
      simp only [List.map_cons, List.nodup_cons]
      exact ⟨hnd.1, hnd.2⟩
    · rw [aset_cons_ne k0 k v0 v rest h0]
      simp only [List.map_cons, List.nodup_cons]
      refine ⟨?_, ih hnd.2⟩
      intro hmem
      rcases (mem_keys_aset_iff rest k v k0).mp hmem with h1 | h1
      · exact hnd.1 h1
      · exact h0 h1

/-- `aerase` keys are a sublist of the original keys. -/
theorem keys_aerase_sublist {A : Type} (m : List (Nat × A)) (k : Nat) :
    List.Sublist ((aerase m k).map Prod.fst) (m.map Prod.fst) :=
  (List.filter_sublist m).map Prod.fst

/-- `aerase` preserves nodup keys. -/
theorem keys_aerase_nodup {A : Type} (m : List (Nat × A)) (k : Nat)
    (hnd : (m.map Prod.fst).Nodup) : ((aerase m k).map Prod.fst).Nodup :=
  (keys_aerase_sublist m k).nodup hnd

/-!
## Congruence and sum lemmas for the cache state
-/

theorem frameOf_congr {K : Type} (s s' : Cache K) (id : Nat)
    (h : alook s'.items id = alook s.items id) : frameOf s' id = frameOf s id := by
  unfold frameOf
  rw [h]

theorem contribOf_congr {K : Type} (H : Nat)
    (items items' : List (Nat × CacheItem K)) (id : Nat)
    (h : alook items' id = alook items id) :
    contribOf H items' id = contribOf H items id := by
  unfold contribOf
  rw [h]

theorem chainSum_congr {K : Type} (H : Nat)
    (items items' : List (Nat × CacheItem K)) (chain : List Nat)
    (h : ∀ id ∈ chain, contribOf H items' id = contribOf H items id) :
    chainSum H items' chain = chainSum H items chain := by
  unfold chainSum
  exact congrArg List.sum (List.map_congr_left h)

theorem mapSum_congr {K : Type} (H : Nat)
    (items items' : List (Nat × CacheItem K)) (m : List (Nat × List Nat))
    (h : ∀ p ∈ m, ∀ id ∈ p.2, contribOf H items' id = contribOf H items id) :
    mapSum H items' m = mapSum H items m := by
  unfold mapSum
  refine congrArg List.sum (List.map_congr_left ?_)
  intro p hp
  exact chainSum_congr H items items' p.2 (fun id hid => h p hp id hid)

/-- Removing one occurrence of a member splits its contribution off. -/
theorem chainSum_erase {K : Type} (H : Nat)
    (items : List (Nat × CacheItem K)) (chain : List Nat) (id : Nat)
    (hmem : id ∈ chain) :
    chainSum H items chain = contribOf H items id + chainSum H items (chain.erase id) := by
  have hperm : List.Perm chain (id :: chain.erase id) := List.perm_cons_erase hmem
  have h2 : List.Perm (chain.map (contribOf H items))
      ((id :: chain.erase id).map (contribOf H items)) := hperm.map _
  unfold chainSum
  rw [h2.sum_eq]
  simp

/-- Replacing the binding of bucket `b` exchanges the two chains' sums. -/
theorem mapSum_aset {K : Type} (H : Nat)
    (items : List (Nat × CacheItem K)) (m : List (Nat × List Nat))
    (b : Nat) (ch : List Nat) :
    mapSum H items (aset m b ch) + chainSum H items (mapGet m b) =
      mapSum H items m + chainSum H items ch := by
  induction m with
  | nil => simp [aset, mapSum, mapGet, alook, chainSum]
  | cons p rest ih =>
    obtain ⟨k0, ch0⟩ := p
    by_cases h0 : k0 = b
    · subst h0
      rw [aset_cons_eq]
      have hg : mapGet ((k0, ch0) :: rest) k0 = ch0 := by
        simp [mapGet, alook]
      rw [hg]
      show chainSum H items ch + mapSum H items rest + chainSum H items ch0 =
        chainSum H items ch0 + mapSum H items rest + chainSum H items ch
      omega
    · rw [aset_cons_ne k0 b ch0 ch rest h0]
      have hg : mapGet ((k0, ch0) :: rest) b = mapGet rest b := by
        simp [mapGet, alook, h0]
      rw [hg]
      show chainSum H items ch0 + mapSum H items (aset rest b ch) +
          chainSum H items (mapGet rest b) =
        chainSum H items ch0 + mapSum H items rest + chainSum H items ch
      omega

/-- Membership in the flattened chains. -/
theorem mem_flatten_snd {A : Type} (m : List (Nat × List A)) (x : A) :
    x ∈ (m.map Prod.snd).flatten ↔ ∃ p ∈ m, x ∈ p.2 := by
  rw [List.mem_flatten]
  constructor
  · rintro ⟨l, hl, hx⟩
    obtain ⟨p, hp, rfl⟩ := List.mem_map.mp hl
    exact ⟨p, hp, hx⟩
  · rintro ⟨p, hp, hx⟩
    exact ⟨p.2, List.mem_map.mpr ⟨p, hp, rfl⟩, hx⟩

/-- With nodup keys, each entry is what `alook` finds. -/
theorem entry_alook {A : Type} (m : List (Nat × A)) (p : Nat × A)
    (hnd : (m.map Prod.fst).Nodup) (hp : p ∈ m) : alook m p.1 = some p.2 :=
  alook_of_mem_nodup m p.1 p.2 hnd hp

/-- Membership in `aset m k v`, given nodup keys. -/
theorem mem_aset_iff {A : Type} (m : List (Nat × A)) (k : Nat) (v : A)
    (p : Nat × A) (hnd : (m.map Prod.fst).Nodup) :
    p ∈ aset m k v ↔ (p ∈ m ∧ p.1 ≠ k) ∨ p = (k, v) := by
  induction m with
  | nil =>
    simp only [aset, List.mem_singleton, List.not_mem_nil, false_and, false_or]
  | cons q rest ih =>
    obtain ⟨k0, v0⟩ := q
    simp only [List.map_cons, List.nodup_cons] at hnd
    by_cases h0 : k0 = k
    · subst h0
      rw [aset_cons_eq]
      simp only [List.mem_cons]
      constructor
      · rintro (rfl | hp)
        · exact Or.inr rfl
        · have hne : p.1 ≠ k0 := by
            intro he
            exact hnd.1 (List.mem_map.mpr ⟨p, hp, he⟩)
          exact Or.inl ⟨Or.inr hp, hne⟩
      · rintro (⟨(rfl | hp), hne⟩ | rfl)
        · exact absurd rfl hne
        · exact Or.inr hp
        · exact Or.inl rfl
    · rw [aset_cons_ne k0 k v0 v rest h0]
      simp only [List.mem_cons, ih hnd.2]
      constructor
      · rintro (rfl | ⟨hp, hne⟩ | rfl)
        · exact Or.inl ⟨Or.inl rfl, h0⟩
        · exact Or.inl ⟨Or.inr hp, hne⟩
        · exact Or.inr rfl
      · rintro (⟨(rfl | hp), hne⟩ | rfl)
        · exact Or.inl rfl
        · exact Or.inr (Or.inl ⟨hp, hne⟩)
        · exact Or.inr (Or.inr rfl)

/-- Pushing `x` onto an assoc-bound list only adds `x` to the flattening,
up to permutation. -/
theorem flatten_aset_push_perm {A : Type} (m : List (Nat × List A))
    (c : Nat) (x : A) :
    List.Perm (((aset m c (x :: (alook m c).getD [])).map Prod.snd).flatten)
      (x :: (m.map Prod.snd).flatten) := by
  induction m with
  | nil => simp [aset, alook]
  | cons p rest ih =>
    obtain ⟨k0, l0⟩ := p
    by_cases h0 : k0 = c
    · subst h0
      have ha : alook ((k0, l0) :: rest) k0 = some l0 := by simp [alook]
      rw [ha]
      rw [aset_cons_eq]
      simp
    · have ha : alook ((k0, l0) :: rest) c = alook rest c := by simp [alook, h0]
      rw [ha, aset_cons_ne k0 c l0 _ rest h0]
      simp only [List.map_cons, List.flatten_cons]
      exact (ih.append_left l0).trans List.perm_middle

/-!
## The structural invariant of reachable cache states
-/

/-- Invariant maintained by every cache operation on every reachable
state.  `H` is the `CACHE_ITEM_SIZE` constant. -/
structure CInv {K : Type} (H : Nat) (s : Cache K) : Prop where
  buckets_pos : 0 < s.buckets
  map_keys_nodup : (s.map.map Prod.fst).Nodup
  chain_nodup : ∀ p ∈ s.map, (p.2 : List Nat).Nodup
  chain_live : ∀ id ∈ allChainIds s, ∃ it, alook s.items id = some it
  chain_bucket : ∀ p ∈ s.map, ∀ id ∈ (p.2 : List Nat), ∀ it,
      alook s.items id = some it → p.1 = it.hash % s.buckets
  resident_iff_queue : ∀ id, id ∈ allChainIds s ↔ id ∈ s.queue
  queue_nodup : s.queue.Nodup
  promote_keys_nodup : (s.promote.map Prod.fst).Nodup
  items_keys_nodup : (s.items.map Prod.fst).Nodup
  items_bound : ∀ id ∈ s.items.map Prod.fst, id < s.next_id
  frame_le : ∀ id it, alook s.items id = some it → it.last_used_frame ≤ s.cur_frame
  promote_sub : ∀ id ∈ promoteAll s, id ∈ s.queue
  promote_nodup : (promoteAll s).Nodup
  promote_frame : ∀ id ∈ promoteAll s, frameOf s id = s.cur_frame
  suffix_cur : (s.queue.filter (fun id => decide (id ∉ promoteAll s))).Pairwise
      (fun a b => frameOf s a = s.cur_frame → frameOf s b = s.cur_frame)
  size_inv : s.cache_size = mapSum H s.items s.map

/-- Key-level invariant: stored hashes agree with the descriptor's hash of
the stored key, and no two resident items have comparing-equal keys
(at-most-one construction per key equivalence class). -/
structure KInv {K : Type} (desc : CacheDesc K) (s : Cache K) : Prop where
  key_hash : ∀ id it, alook s.items id = some it → it.hash = desc.hash_func it.key
  unique_keys : ∀ id1 id2 it1 it2, id1 ∈ allChainIds s → id2 ∈ allChainIds s →
      alook s.items id1 = some it1 → alook s.items id2 = some it2 →
      desc.compare_func it1.key it2.key = true → id1 = id2

/-- Lawfulness of a type descriptor: the comparison is an equivalence and
equal-comparing keys hash alike (all the concrete libass descriptors are
structural comparisons with matching hash walks). -/
structure DescOk {K : Type} (desc : CacheDesc K) : Prop where
  refl : ∀ a, desc.compare_func a a = true
  symm : ∀ a b, desc.compare_func a b = true → desc.compare_func b a = true
  trans : ∀ a b c, desc.compare_func a b = true →
      desc.compare_func b c = true → desc.compare_func a c = true
  hash_compat : ∀ a b, desc.compare_func a b = true →
      desc.hash_func a = desc.hash_func b

/-- One cache operation, as performed by the public entry points.  The
`dec` step carries the usage contract checked by the asserts in
`dec_ref_item` and `destroy_item`: an external release happens only while
the caller still holds a reference beyond the cache's structural one, or
after the item has left the cache structure. -/
inductive Step {K : Type} (desc : CacheDesc K) (H : Nat) :
    Cache K → Cache K → Prop where
  | get (client : Nat) (key : K) (aOk mOk : Bool) (s : Cache K) :
      Step desc H s (ass_cache_get desc H client key aOk mOk s).state
  | inc (id : Nat) (s : Cache K) : Step desc H s (ass_cache_inc_ref s id)
  | dec (id : Nat) (s : Cache K)
      (hok : ∀ it, alook s.items id = some it →
        2 ≤ it.ref_count ∨ id ∉ allChainIds s) :
      Step desc H s (ass_cache_dec_ref s id)
  | cut (maxSize : Nat) (s : Cache K) :
      Step desc H s (ass_cache_cut H s maxSize).1
  | empty (s : Cache K) : Step desc H s (ass_cache_empty H s)
  | done (s : Cache K) : Step desc H s (ass_cache_done H s)

/-- Reflexive-transitive closure of `Step`. -/
inductive Steps {K : Type} (desc : CacheDesc K) (H : Nat) :
    Cache K → Cache K → Prop where
  | refl (s : Cache K) : Steps desc H s s
  | tail {s t u : Cache K} : Steps desc H s t → Step desc H t u →
      Steps desc H s u

/-- A state reachable from `ass_cache_create` by cache operations. -/
def Reachable {K : Type} (desc : CacheDesc K) (H : Nat) (s : Cache K) : Prop :=
  Steps desc H (ass_cache_create K) s

/-- The fresh cache satisfies the invariant. -/
theorem inv_create (K : Type) (H : Nat) : CInv H (ass_cache_create K) := by
  refine ⟨?_, ?_, ?_, ?_, ?_, ?_, ?_, ?_, ?_, ?_, ?_, ?_, ?_, ?_, ?_, ?_⟩ <;>
    simp [ass_cache_create, allChainIds, promoteAll, mapSum, alook]

/-- The fresh cache satisfies the key invariant. -/
theorem kinv_create (K : Type) (desc : CacheDesc K) :
    KInv desc (ass_cache_create K) := by
  constructor
  · intro id it h
    simp [ass_cache_create, alook] at h
  · intro id1 id2 it1 it2 h1 h2
    simp [ass_cache_create, allChainIds] at h1

/-- Under the invariant, a resident item sits in the chain of the bucket
selected by its stored hash. -/
theorem CInv.resident_bucket {K : Type} {H : Nat} {s : Cache K}
    (hi : CInv H s) (id : Nat) (it : CacheItem K)
    (hmem : id ∈ allChainIds s) (hit : alook s.items id = some it) :
    id ∈ mapGet s.map (it.hash % s.buckets) := by
  obtain ⟨p, hp, hidp⟩ := (mem_flatten_snd s.map id).mp hmem
  have hb := hi.chain_bucket p hp id hidp it hit
  have ha := entry_alook s.map p hi.map_keys_nodup hp
  rw [← hb]
  unfold mapGet
  rw [ha]
  exact hidp

/-- Under the invariant, an id in some entry's chain determines that entry:
it is the one `alook` finds for the item's bucket. -/
theorem CInv.chain_entry_unique {K : Type} {H : Nat} {s : Cache K}
    (hi : CInv H s) (p : Nat × List Nat) (hp : p ∈ s.map) (id : Nat)
    (hidp : id ∈ p.2) (it : CacheItem K) (hit : alook s.items id = some it) :
    p.1 = it.hash % s.buckets ∧ mapGet s.map p.1 = p.2 := by
  refine ⟨hi.chain_bucket p hp id hidp it hit, ?_⟩
  unfold mapGet
  rw [entry_alook s.map p hi.map_keys_nodup hp]
  rfl

/-- `getHit` leaves every field except `items` and `promote` unchanged. -/
theorem getHit_fields {K : Type} (client : Nat) (s : Cache K) (id : Nat)
    (it : CacheItem K) :
    (getHit client s id it).map = s.map ∧
    (getHit client s id it).queue = s.queue ∧
    (getHit client s id it).buckets = s.buckets ∧
    (getHit client s id it).cache_size = s.cache_size ∧
    (getHit client s id it).cur_frame = s.cur_frame ∧
    (getHit client s id it).next_id = s.next_id ∧
    (getHit client s id it).construct_log = s.construct_log := by
  unfold getHit
  by_cases hf : it.last_used_frame = s.cur_frame <;> simp [hf]

/-- The hit path preserves the structural invariant. -/
theorem cinv_getHit {K : Type} {H : Nat} {s : Cache K} (hi : CInv H s)
    (client id : Nat) (it : CacheItem K)
    (hid : alook s.items id = some it)
    (hres : id ∈ allChainIds s) :
    CInv H (getHit client s id it) := by
  unfold getHit
  by_cases hf : it.last_used_frame = s.cur_frame
  · rw [if_pos hf]
    exact hi
  · rw [if_neg hf]
    set it' : CacheItem K := { it with last_used_frame := s.cur_frame } with hit'
    set s' : Cache K :=
      { s with
        items := aset s.items id it'
        promote := aset s.promote client (id :: promGet s.promote client) } with hs'
    have hidnp : id ∉ promoteAll s := by
      intro hmem
      have := hi.promote_frame id hmem
      unfold frameOf at this
      rw [hid] at this
      exact hf this
    have hperm : List.Perm (promoteAll s') (id :: promoteAll s) :=
      flatten_aset_push_perm s.promote client id
    have hmemP : ∀ x, x ∈ promoteAll s' ↔ x = id ∨ x ∈ promoteAll s := by
      intro x
      rw [hperm.mem_iff, List.mem_cons]
    have hlook_self : alook s'.items id = some it' := alook_aset_self _ _ _
    have hlook_ne : ∀ x, x ≠ id → alook s'.items x = alook s.items x := by
      intro x hx
      exact alook_aset_ne s.items id x it' (fun he => hx he.symm)
    have hframe_ne : ∀ x, x ≠ id → frameOf s' x = frameOf s x := by
      intro x hx
      exact frameOf_congr s s' x (hlook_ne x hx)
    have hchains : allChainIds s' = allChainIds s := rfl
    refine ⟨hi.buckets_pos, hi.map_keys_nodup, hi.chain_nodup, ?_, ?_, ?_,
      hi.queue_nodup, ?_, ?_, ?_, ?_, ?_, ?_, ?_, ?_, ?_⟩
    · intro x hx
      rw [hchains] at hx
      by_cases he : x = id
      · subst he
        exact ⟨it', hlook_self⟩
      · obtain ⟨it0, h0⟩ := hi.chain_live x hx
        exact ⟨it0, by rw [hlook_ne x he, h0]⟩
    · intro p hp x hxp it0 hit0
      by_cases he : x = id
      · subst he
        rw [hlook_self] at hit0
        cases hit0
        exact hi.chain_bucket p hp x hxp it hid
      · rw [hlook_ne x he] at hit0
        exact hi.chain_bucket p hp x hxp it0 hit0
    · exact hi.resident_iff_queue
    · exact keys_aset_nodup s.promote client _ hi.promote_keys_nodup
    · exact keys_aset_nodup s.items id it' hi.items_keys_nodup
    · intro x hx
      rcases (mem_keys_aset_iff s.items id it' x).mp hx with h1 | h1
      · exact hi.items_bound x h1
      · subst h1
        exact hi.items_bound x (List.mem_map.mpr ⟨(x, it), alook_mem _ _ _ hid, rfl⟩)
    · intro x it0 hit0
      by_cases he : x = id
      · subst he
        rw [hlook_self] at hit0
        cases hit0
        exact Nat.le_refl _
      · rw [hlook_ne x he] at hit0
        exact hi.frame_le x it0 hit0
    · intro x hx
      rcases (hmemP x).mp hx with h1 | h1
      · subst h1
        exact (hi.resident_iff_queue x).mp hres
      · exact hi.promote_sub x h1
    · rw [hperm.nodup_iff]
      exact List.nodup_cons.mpr ⟨hidnp, hi.promote_nodup⟩
    · intro x hx
      rcases (hmemP x).mp hx with h1 | h1
      · subst h1
        unfold frameOf
        rw [hlook_self]
      · have hne : x ≠ id := fun he => hidnp (he ▸ h1)
        rw [hframe_ne x hne]
        exact hi.promote_frame x h1
    · have hsub : List.Sublist
          (s.queue.filter (fun x => decide (x ∉ promoteAll s')))
          (s.queue.filter (fun x => decide (x ∉ promoteAll s))) := by
        refine List.monotone_filter_right s.queue ?_
        intro a ha
        simp only [decide_eq_true_eq] at ha ⊢
        intro hmem
        exact ha ((hmemP a).mpr (Or.inr hmem))
      have hpw := hi.suffix_cur.sublist hsub
      have hmemf : ∀ a, a ∈ s.queue.filter (fun x => decide (x ∉ promoteAll s')) →
          a ≠ id := by
        intro a ha he
        subst he
        have := (List.mem_filter.mp ha).2
        simp only [decide_eq_true_eq] at this
        exact this ((hmemP a).mpr (Or.inl rfl))
      refine List.Pairwise.imp_of_mem ?_ hpw
      intro a b ha hb hr
      rw [hframe_ne a (hmemf a ha), hframe_ne b (hmemf b hb)]
      exact hr
    · show s.cache_size = mapSum H s'.items s.map
      rw [hi.size_inv]
      refine (mapSum_congr H s.items s'.items s.map ?_).symm
      intro p hp x hxp
      by_cases he : x = id
      · subst he
        unfold contribOf
        rw [hlook_self, hid]
        rfl
      · exact contribOf_congr H s.items s'.items x (hlook_ne x he)

theorem chainSum_cons {K : Type} (H : Nat) (items : List (Nat × CacheItem K))
    (x : Nat) (l : List Nat) :
    chainSum H items (x :: l) = contribOf H items x + chainSum H items l := by
  simp [chainSum]

theorem mem_mapGet_allChainIds {K : Type} (s : Cache K) (b x : Nat)
    (hx : x ∈ mapGet s.map b) : x ∈ allChainIds s := by
  unfold mapGet at hx
  cases ha : alook s.map b with
  | none =>
    rw [ha] at hx
    simp at hx
  | some ch =>
    rw [ha] at hx
    exact (mem_flatten_snd _ _).mpr ⟨(b, ch), alook_mem _ _ _ ha, hx⟩

theorem CInv.mapGet_nodup {K : Type} {H : Nat} {s : Cache K}
    (hi : CInv H s) (b : Nat) : (mapGet s.map b).Nodup := by
  unfold mapGet
  cases ha : alook s.map b with
  | none => simp
  | some ch => exact hi.chain_nodup (b, ch) (alook_mem _ _ _ ha)

/-- Fresh ids: `next_id` is bound nowhere. -/
theorem CInv.fresh_not_bound {K : Type} {H : Nat} {s : Cache K}
    (hi : CInv H s) : alook s.items s.next_id = none := by
  cases ha : alook s.items s.next_id with
  | none => rfl
  | some v =>
    have := hi.items_bound s.next_id
      (List.mem_map.mpr ⟨(s.next_id, v), alook_mem _ _ _ ha, rfl⟩)
    omega

theorem CInv.fresh_not_resident {K : Type} {H : Nat} {s : Cache K}
    (hi : CInv H s) : s.next_id ∉ allChainIds s := by
  intro hmem
  obtain ⟨it, hit⟩ := hi.chain_live _ hmem
  rw [hi.fresh_not_bound] at hit
  cases hit

theorem CInv.resident_ne_fresh {K : Type} {H : Nat} {s : Cache K}
    (hi : CInv H s) (x : Nat) (hx : x ∈ allChainIds s) : x ≠ s.next_id :=
  fun he => hi.fresh_not_resident (he ▸ hx)

theorem CInv.queue_ne_fresh {K : Type} {H : Nat} {s : Cache K}
    (hi : CInv H s) (x : Nat) (hx : x ∈ s.queue) : x ≠ s.next_id :=
  hi.resident_ne_fresh x ((hi.resident_iff_queue x).mpr hx)

/-- The miss path preserves the structural invariant. -/
theorem cinv_getMiss {K : Type} {H : Nat} (desc : CacheDesc K)
    (client : Nat) (key : K) {s : Cache K} (hi : CInv H s)
    (hmiss : scanChain desc s.items key (desc.hash_func key)
      (mapGet s.map (desc.hash_func key % s.buckets)) = none) :
    CInv H (ass_cache_get desc H client key true true s).state := by
  rw [ass_cache_get_miss_eq desc H client key s hmiss]
  set nid := s.next_id with hnid
  set b := desc.hash_func key % s.buckets with hb
  set prep : CacheItem K := prepareItem desc key s.cur_frame with hprep
  set sz := desc.construct_func key with hsz
  set prep' : CacheItem K := { prep with size := sz } with hprep'
  have h0 : alook (insertNewItem desc key s).2.items nid =
      some prep := alook_aset_self _ _ _
  have hstate : (insertNewItem desc key s).1 = nid := rfl
  set s' : Cache K :=
    { finishConstruct H (insertNewItem desc key s).1 sz
        (insertNewItem desc key s).2 with
      construct_log := key :: s.construct_log } with hs'
  have hitems' : s'.items = aset (aset s.items nid prep) nid prep' := by
    show (finishConstruct H (insertNewItem desc key s).1 sz
      (insertNewItem desc key s).2).items = _
    unfold finishConstruct
    rw [hstate, h0]
    rfl
  have hmap' : s'.map = aset s.map b (nid :: mapGet s.map b) := rfl
  have hqueue' : s'.queue = s.queue ++ [nid] := rfl
  have hsize' : s'.cache_size = s.cache_size + contribSize H sz := rfl
  have hfresh := hi.fresh_not_bound
  have hlook_self : alook s'.items nid = some prep' := by
    rw [hitems']
    exact alook_aset_self _ _ _
  have hlook_ne : ∀ x, x ≠ nid → alook s'.items x = alook s.items x := by
    intro x hx
    rw [hitems', alook_aset_ne _ _ _ _ (fun he => hx he.symm),
      alook_aset_ne _ _ _ _ (fun he => hx he.symm)]
  have hperm : List.Perm (allChainIds s') (nid :: allChainIds s) := by
    show List.Perm (((aset s.map b (nid :: mapGet s.map b)).map Prod.snd).flatten) _
    exact flatten_aset_push_perm s.map b nid
  have hmemA : ∀ x, x ∈ allChainIds s' ↔ x = nid ∨ x ∈ allChainIds s := by
    intro x
    rw [hperm.mem_iff, List.mem_cons]
  have hfq : nid ∉ s.queue := fun hq => hi.queue_ne_fresh nid hq rfl
  have hfp : nid ∉ promoteAll s := fun hp => hfq (hi.promote_sub nid hp)
  have hcong : ∀ x, x ∈ allChainIds s → contribOf H s'.items x = contribOf H s.items x := by
    intro x hx
    exact contribOf_congr H s.items s'.items x
      (hlook_ne x (hi.resident_ne_fresh x hx))
  refine ⟨hi.buckets_pos, ?_, ?_, ?_, ?_, ?_, ?_, hi.promote_keys_nodup,
    ?_, ?_, ?_, ?_, hi.promote_nodup, ?_, ?_, ?_⟩
  · rw [hmap']
    exact keys_aset_nodup s.map b _ hi.map_keys_nodup
  · rw [hmap']
    intro p hp
    rcases (mem_aset_iff s.map b _ p hi.map_keys_nodup).mp hp with ⟨h1, _⟩ | h1
    · exact hi.chain_nodup p h1
    · subst h1
      refine List.nodup_cons.mpr ⟨?_, hi.mapGet_nodup b⟩
      intro hmem
      exact hi.fresh_not_resident (mem_mapGet_allChainIds s b nid hmem)
  · intro x hx
    rcases (hmemA x).mp hx with h1 | h1
    · subst h1
      exact ⟨prep', hlook_self⟩
    · obtain ⟨it0, hit0⟩ := hi.chain_live x h1
      exact ⟨it0, by rw [hlook_ne x (hi.resident_ne_fresh x h1), hit0]⟩
  · rw [hmap']
    intro p hp x hxp it0 hit0
    rcases (mem_aset_iff s.map b _ p hi.map_keys_nodup).mp hp with ⟨h1, _⟩ | h1
    · have hxr : x ∈ allChainIds s := (mem_flatten_snd _ _).mpr ⟨p, h1, hxp⟩
      rw [hlook_ne x (hi.resident_ne_fresh x hxr)] at hit0
      exact hi.chain_bucket p h1 x hxp it0 hit0
    · subst h1
      rcases List.mem_cons.mp hxp with h2 | h2
      · subst h2
        rw [hlook_self] at hit0
        cases hit0
        rfl
      · have hxr : x ∈ allChainIds s := mem_mapGet_allChainIds s b x h2
        rw [hlook_ne x (hi.resident_ne_fresh x hxr)] at hit0
        show b = it0.hash % s.buckets
        unfold mapGet at h2
        cases ha : alook s.map b with
        | none =>
          rw [ha] at h2
          simp at h2
        | some ch =>
          rw [ha] at h2
          exact hi.chain_bucket (b, ch) (alook_mem _ _ _ ha) x h2 it0 hit0
  · intro x
    rw [hmemA x, hqueue']
    rw [List.mem_append, List.mem_singleton]
    rw [hi.resident_iff_queue x]
    tauto
  · rw [hqueue']
    rw [List.nodup_append]
    exact ⟨hi.queue_nodup, List.nodup_singleton nid,
      fun a ha hb2 => hfq ((List.mem_singleton.mp hb2) ▸ ha)⟩
  · rw [hitems']
    exact keys_aset_nodup _ _ _ (keys_aset_nodup _ _ _ hi.items_keys_nodup)
  · intro x hx
    rw [hitems'] at hx
    show x < nid + 1
    rcases (mem_keys_aset_iff _ _ _ x).mp hx with h1 | h1
    · rcases (mem_keys_aset_iff _ _ _ x).mp h1 with h2 | h2
      · have := hi.items_bound x h2
        omega
      · omega
    · omega
  · intro x it0 hit0
    show it0.last_used_frame ≤ s.cur_frame
    by_cases he : x = nid
    · subst he
      rw [hlook_self] at hit0
      cases hit0
      exact Nat.le_refl _
    · rw [hlook_ne x he] at hit0
      exact hi.frame_le x it0 hit0
  · intro x hx
    show x ∈ s'.queue
    rw [hqueue']
    exact List.mem_append.mpr (Or.inl (hi.promote_sub x hx))
  · intro x hx
    show frameOf s' x = s.cur_frame
    have hne : x ≠ nid := fun he => hfp (he ▸ hx)
    rw [frameOf_congr s s' x (hlook_ne x hne)]
    exact hi.promote_frame x hx
  · show (s'.queue.filter (fun id => decide (id ∉ promoteAll s'))).Pairwise _
    have hpa : promoteAll s' = promoteAll s := rfl
    rw [hqueue', hpa, List.filter_append]
    have hnidf : [nid].filter (fun id => decide (id ∉ promoteAll s)) = [nid] := by
      simp [hfp]
    rw [hnidf]
    rw [List.pairwise_append]
    have hmemf : ∀ a, a ∈ s.queue.filter (fun x => decide (x ∉ promoteAll s)) →
        a ≠ nid := by
      intro a ha
      exact hi.queue_ne_fresh a (List.mem_filter.mp ha).1
    refine ⟨?_, List.pairwise_singleton _ _, ?_⟩
    · refine List.Pairwise.imp_of_mem ?_ hi.suffix_cur
      intro a b2 ha hb2 hr
      rw [frameOf_congr s s' a (hlook_ne a (hmemf a ha)),
        frameOf_congr s s' b2 (hlook_ne b2 (hmemf b2 hb2))]
      exact hr
    · intro a ha b2 hb2
      rw [List.mem_singleton.mp hb2]
      intro hfa
      unfold frameOf
      rw [hlook_self]
      rfl
  · show s'.cache_size = mapSum H s'.items s'.map
    rw [hsize', hmap']
    have h1 := mapSum_aset H s'.items s.map b (nid :: mapGet s.map b)
    have h2 : chainSum H s'.items (nid :: mapGet s.map b) =
        contribOf H s'.items nid + chainSum H s'.items (mapGet s.map b) :=
      chainSum_cons H s'.items nid (mapGet s.map b)
    have h3 : contribOf H s'.items nid = contribSize H sz := by
      unfold contribOf
      rw [hlook_self]
      rfl
    have h4 : mapSum H s'.items s.map = mapSum H s.items s.map := by
      refine mapSum_congr H s.items s'.items s.map ?_
      intro p hp x hxp
      exact hcong x ((mem_flatten_snd _ _).mpr ⟨p, hp, hxp⟩)
    rw [h2, h3, h4] at h1
    rw [← hi.size_inv] at h1
    omega

theorem alook_aerase_some {A : Type} (m : List (Nat × A)) (k x : Nat) (v : A)
    (h : alook (aerase m k) x = some v) : alook m x = some v := by
  by_cases he : x = k
  · subst he
    rw [alook_aerase_self] at h
    cases h
  · rw [alook_aerase_ne m k x (fun e => he e.symm)] at h
    exact h

/-- Updating one item without changing its hash, size or frame preserves
the structural invariant (this covers `inc_ref` and the non-final
`dec_ref`). -/
theorem cinv_update_meta {K : Type} {H : Nat} {s : Cache K} (hi : CInv H s)
    (id : Nat) (it it2 : CacheItem K) (hid : alook s.items id = some it)
    (hh : it2.hash = it.hash) (hsz : it2.size = it.size)
    (hfr : it2.last_used_frame = it.last_used_frame) :
    CInv H { s with items := aset s.items id it2 } := by
  set s' : Cache K := { s with items := aset s.items id it2 } with hs'
  have hlook_self : alook s'.items id = some it2 := alook_aset_self _ _ _
  have hlook_ne : ∀ x, x ≠ id → alook s'.items x = alook s.items x := by
    intro x hx
    exact alook_aset_ne s.items id x it2 (fun he => hx he.symm)
  have hframe : ∀ x, frameOf s' x = frameOf s x := by
    intro x
    by_cases he : x = id
    · subst he
      unfold frameOf
      rw [hlook_self, hid]
      show it2.last_used_frame = it.last_used_frame
      rw [hfr]
    · exact frameOf_congr s s' x (hlook_ne x he)
  have hcontrib : ∀ x, contribOf H s'.items x = contribOf H s.items x := by
    intro x
    by_cases he : x = id
    · subst he
      unfold contribOf
      rw [hlook_self, hid]
      show contribSize H it2.size = contribSize H it.size
      rw [hsz]
    · exact contribOf_congr H s.items s'.items x (hlook_ne x he)
  refine ⟨hi.buckets_pos, hi.map_keys_nodup, hi.chain_nodup, ?_, ?_,
    hi.resident_iff_queue, hi.queue_nodup, hi.promote_keys_nodup, ?_, ?_, ?_,
    hi.promote_sub, hi.promote_nodup, ?_, ?_, ?_⟩
  · intro x hx
    by_cases he : x = id
    · subst he
      exact ⟨it2, hlook_self⟩
    · obtain ⟨it0, hit0⟩ := hi.chain_live x hx
      exact ⟨it0, by rw [hlook_ne x he, hit0]⟩
  · intro p hp x hxp it0 hit0
    by_cases he : x = id
    · subst he
      rw [hlook_self] at hit0
      cases hit0
      rw [hh]
      exact hi.chain_bucket p hp x hxp it hid
    · rw [hlook_ne x he] at hit0
      exact hi.chain_bucket p hp x hxp it0 hit0
  · exact keys_aset_nodup s.items id it2 hi.items_keys_nodup
  · intro x hx
    rcases (mem_keys_aset_iff s.items id it2 x).mp hx with h1 | h1
    · exact hi.items_bound x h1
    · subst h1
      exact hi.items_bound x (List.mem_map.mpr ⟨(x, it), alook_mem _ _ _ hid, rfl⟩)
  · intro x it0 hit0
    by_cases he : x = id
    · subst he
      rw [hlook_self] at hit0
      cases hit0
      rw [hfr]
      exact hi.frame_le x it hid
    · rw [hlook_ne x he] at hit0
      exact hi.frame_le x it0 hit0
  · intro x hx
    rw [hframe x]
    exact hi.promote_frame x hx
  · refine List.Pairwise.imp_of_mem ?_ hi.suffix_cur
    intro a b2 _ _ hr
    rw [hframe a, hframe b2]
    exact hr
  · show s.cache_size = mapSum H s'.items s.map
    rw [hi.size_inv]
    exact (mapSum_congr H s.items s'.items s.map
      (fun p _ x _ => hcontrib x)).symm

/-- Erasing a detached item preserves the structural invariant. -/
theorem cinv_erase_detached {K : Type} {H : Nat} {s : Cache K}
    (hi : CInv H s) (id : Nat) (hnr : id ∉ allChainIds s) :
    CInv H { s with items := aerase s.items id,
                    destroy_log := id :: s.destroy_log } := by
  set s' : Cache K := { s with items := aerase s.items id,
                               destroy_log := id :: s.destroy_log } with hs'
  have hnq : id ∉ s.queue := fun hq => hnr ((hi.resident_iff_queue id).mpr hq)
  have hlook_ne : ∀ x, x ≠ id → alook s'.items x = alook s.items x := by
    intro x hx
    exact alook_aerase_ne s.items id x (fun he => hx he.symm)
  have hframe : ∀ x, x ≠ id → frameOf s' x = frameOf s x := by
    intro x hx
    exact frameOf_congr s s' x (hlook_ne x hx)
  have hres_ne : ∀ x, x ∈ allChainIds s → x ≠ id := by
    intro x hx he
    exact hnr (he ▸ hx)
  refine ⟨hi.buckets_pos, hi.map_keys_nodup, hi.chain_nodup, ?_, ?_,
    hi.resident_iff_queue, hi.queue_nodup, hi.promote_keys_nodup, ?_, ?_, ?_,
    hi.promote_sub, hi.promote_nodup, ?_, ?_, ?_⟩
  · intro x hx
    obtain ⟨it0, hit0⟩ := hi.chain_live x hx
    exact ⟨it0, by rw [hlook_ne x (hres_ne x hx), hit0]⟩
  · intro p hp x hxp it0 hit0
    have hxr : x ∈ allChainIds s := (mem_flatten_snd _ _).mpr ⟨p, hp, hxp⟩
    rw [hlook_ne x (hres_ne x hxr)] at hit0
    exact hi.chain_bucket p hp x hxp it0 hit0
  · exact keys_aerase_nodup s.items id hi.items_keys_nodup
  · intro x hx
    exact hi.items_bound x ((keys_aerase_sublist s.items id).subset hx)
  · intro x it0 hit0
    exact hi.frame_le x it0 (alook_aerase_some s.items id x it0 hit0)
  · intro x hx
    have hxq := hi.promote_sub x hx
    have hxr := (hi.resident_iff_queue x).mpr hxq
    rw [hframe x (hres_ne x hxr)]
    exact hi.promote_frame x hx
  · refine List.Pairwise.imp_of_mem ?_ hi.suffix_cur
    intro a b2 ha hb2 hr
    have haq := (List.mem_filter.mp ha).1
    have hbq := (List.mem_filter.mp hb2).1
    rw [hframe a (hres_ne a ((hi.resident_iff_queue a).mpr haq)),
      hframe b2 (hres_ne b2 ((hi.resident_iff_queue b2).mpr hbq))]
    exact hr
  · show s.cache_size = mapSum H s'.items s.map
    rw [hi.size_inv]
    refine (mapSum_congr H s.items s'.items s.map ?_).symm
    intro p hp x hxp
    exact contribOf_congr H s.items s'.items x
      (hlook_ne x (hres_ne x ((mem_flatten_snd _ _).mpr ⟨p, hp, hxp⟩)))

/-- `dec_ref_item` only touches `items` and the destroy log. -/
theorem dec_ref_item_fields {K : Type} (s : Cache K) (id : Nat) :
    (dec_ref_item s id).map = s.map ∧
    (dec_ref_item s id).queue = s.queue ∧
    (dec_ref_item s id).promote = s.promote ∧
    (dec_ref_item s id).cur_frame = s.cur_frame ∧
    (dec_ref_item s id).cache_size = s.cache_size ∧
    (dec_ref_item s id).buckets = s.buckets ∧
    (dec_ref_item s id).next_id = s.next_id := by
  unfold dec_ref_item
  cases h : alook s.items id with
  | none => exact ⟨rfl, rfl, rfl, rfl, rfl, rfl, rfl⟩
  | some it =>
    by_cases hz : it.ref_count - 1 = 0 <;> simp [hz]

/-- `dec_ref_item` preserves the structural invariant under the usage
contract: the released reference is not the structural one unless the item
has already left the cache. -/
theorem cinv_dec {K : Type} {H : Nat} {s : Cache K} (hi : CInv H s)
    (id : Nat)
    (hok : ∀ it, alook s.items id = some it →
      2 ≤ it.ref_count ∨ id ∉ allChainIds s) :
    CInv H (dec_ref_item s id) := by
  unfold dec_ref_item
  cases h : alook s.items id with
  | none => exact hi
  | some it =>
    show CInv H (if it.ref_count - 1 = 0 then
      { s with items := aerase s.items id, destroy_log := id :: s.destroy_log }
    else
      { s with items := aset s.items id { it with ref_count := it.ref_count - 1 } })
    by_cases hz : it.ref_count - 1 = 0
    · rw [if_pos hz]
      rcases hok it h with h2 | h2
      · omega
      · exact cinv_erase_detached hi id h2
    · rw [if_neg hz]
      exact cinv_update_meta hi id it { it with ref_count := it.ref_count - 1 }
        h rfl rfl rfl

/-- `get` with a failing allocation leaves the state unchanged. -/
theorem ass_cache_get_noalloc_eq {K : Type} (desc : CacheDesc K)
    (H client : Nat) (key : K) (s : Cache K) (mOk : Bool)
    (hmiss : scanChain desc s.items key (desc.hash_func key)
      (mapGet s.map (desc.hash_func key % s.buckets)) = none) :
    ass_cache_get desc H client key false mOk s =
      { value := none, state := s, events := [KeyEvent.moveNull] } := by
  unfold ass_cache_get
  rw [hmiss]
  rfl

/-- `get` with a failing key move leaves the state unchanged. -/
theorem ass_cache_get_nomove_eq {K : Type} (desc : CacheDesc K)
    (H client : Nat) (key : K) (s : Cache K)
    (hmiss : scanChain desc s.items key (desc.hash_func key)
      (mapGet s.map (desc.hash_func key % s.buckets)) = none) :
    ass_cache_get desc H client key true false s =
      { value := none, state := s, events := [KeyEvent.moveNull] } := by
  unfold ass_cache_get
  rw [hmiss]
  rfl

theorem decide_not_mem_cons (x p : Nat) (rest : List Nat) :
    decide (x ∉ p :: rest) = (decide (x ∉ rest) && (x != p)) := by
  by_cases h1 : x = p <;> by_cases h2 : x ∈ rest <;> simp [h1, h2]

/-- Behaviour of the promote-list drain: the queue keeps exactly its
members (each promoted item is unlinked and re-linked at the tail), stays
nodup, and ends up ordered so that current-frame items form a suffix. -/
theorem promoteDrain_spec (f : Nat → Nat) (cur : Nat) :
    ∀ (P q : List Nat), q.Nodup → P.Nodup → (∀ x ∈ P, x ∈ q) →
    (∀ x ∈ P, f x = cur) →
    (q.filter (fun x => decide (x ∉ P))).Pairwise
      (fun a b => f a = cur → f b = cur) →
    (promoteDrain q P).Nodup ∧ (∀ x, x ∈ promoteDrain q P ↔ x ∈ q) ∧
    (promoteDrain q P).Pairwise (fun a b => f a = cur → f b = cur)
  | [], q, hq, _, _, _, hpw => by
    refine ⟨hq, fun x => Iff.rfl, ?_⟩
    have : q.filter (fun x => decide (x ∉ ([] : List Nat))) = q := by
      apply List.filter_eq_self.mpr
      intro a _
      simp
    rw [this] at hpw
    exact hpw
  | p :: rest, q, hq, hP, hPq, hPf, hpw => by
    have hpq : p ∈ q := hPq p (by simp)
    have hPnd := List.nodup_cons.mp hP
    set q1 : List Nat := q.erase p ++ [p] with hq1
    have herased : (q.erase p).Nodup := hq.erase p
    have hq1nd : q1.Nodup := by
      rw [hq1, List.nodup_append]
      refine ⟨herased, List.nodup_singleton p, ?_⟩
      intro a ha hb
      rw [List.mem_singleton.mp hb] at ha
      exact ((hq.mem_erase_iff).mp ha).1 rfl
    have hmem1 : ∀ x, x ∈ q1 ↔ x ∈ q := by
      intro x
      rw [hq1, List.mem_append, List.mem_singleton, hq.mem_erase_iff]
      constructor
      · rintro (⟨_, hx⟩ | rfl)
        · exact hx
        · exact hpq
      · intro hx
        by_cases he : x = p
        · exact Or.inr he
        · exact Or.inl ⟨he, hx⟩
    have hsub1 : ∀ x ∈ rest, x ∈ q1 := by
      intro x hx
      exact (hmem1 x).mpr (hPq x (by simp [hx]))
    have hfilter1 : q1.filter (fun x => decide (x ∉ rest)) =
        q.filter (fun x => decide (x ∉ p :: rest)) ++ [p] := by
      rw [hq1, List.filter_append]
      have h1 : [p].filter (fun x => decide (x ∉ rest)) = [p] := by
        simp [hPnd.1]
      rw [h1]
      congr 1
      rw [hq.erase_eq_filter p, List.filter_filter]
      refine List.filter_congr ?_
      intro x _
      rw [decide_not_mem_cons]
    have hpw1 : (q1.filter (fun x => decide (x ∉ rest))).Pairwise
        (fun a b => f a = cur → f b = cur) := by
      rw [hfilter1, List.pairwise_append]
      refine ⟨hpw, List.pairwise_singleton _ _, ?_⟩
      intro a _ b2 hb2 _
      rw [List.mem_singleton.mp hb2]
      exact hPf p (by simp)
    have ih := promoteDrain_spec f cur rest q1 hq1nd hPnd.2 hsub1
      (fun x hx => hPf x (by simp [hx])) hpw1
    refine ⟨ih.1, ?_, ih.2.2⟩
    intro x
    rw [show promoteDrain q (p :: rest) = promoteDrain q1 rest from rfl]
    rw [ih.2.1 x]
    exact hmem1 x

theorem filter_promoteAll_nil {K : Type} (s : Cache K) (hp : s.promote = []) :
    s.queue.filter (fun id => decide (id ∉ promoteAll s)) = s.queue := by
  apply List.filter_eq_self.mpr
  intro a _
  simp [promoteAll, hp]

/-- Evicting the queue head preserves the structural invariant; the queue
becomes its tail and the other control fields are untouched. -/
theorem cinv_evictHead {K : Type} {H : Nat} {s : Cache K} (hi : CInv H s)
    (id : Nat) (it : CacheItem K) (rest : List Nat)
    (hprom : s.promote = [])
    (hque : s.queue = id :: rest)
    (hid : alook s.items id = some it) :
    CInv H (evictHead H s id it rest) ∧
    (evictHead H s id it rest).queue = rest ∧
    (evictHead H s id it rest).promote = [] ∧
    (evictHead H s id it rest).cur_frame = s.cur_frame ∧
    (evictHead H s id it rest).items = (dec_ref_item
      { s with queue := rest,
               map := aset s.map (it.hash % s.buckets)
                 ((mapGet s.map (it.hash % s.buckets)).erase id),
               cache_size := s.cache_size - contrib H it } id).items := by
  set b := it.hash % s.buckets with hb
  set ch' := (mapGet s.map b).erase id with hch
  set s_mid : Cache K :=
    { s with queue := rest, map := aset s.map b ch',
             cache_size := s.cache_size - contrib H it } with hsmid
  have hresid : id ∈ allChainIds s := by
    refine (hi.resident_iff_queue id).mpr ?_
    rw [hque]
    simp
  have hidb : id ∈ mapGet s.map b := hi.resident_bucket id it hresid hid
  have hbnodup : (mapGet s.map b).Nodup := hi.mapGet_nodup b
  have hchainb : alook s.map b = some (mapGet s.map b) := by
    cases ha : alook s.map b with
    | none =>
      exfalso
      unfold mapGet at hidb
      rw [ha] at hidb
      simp at hidb
    | some ch =>
      unfold mapGet
      rw [ha]
      rfl
  have hidrest : id ∉ rest := by
    have := hi.queue_nodup
    rw [hque] at this
    exact (List.nodup_cons.mp this).1
  have hmemA : ∀ x, x ∈ allChainIds s_mid ↔ x ∈ allChainIds s ∧ x ≠ id := by
    intro x
    show x ∈ ((aset s.map b ch').map Prod.snd).flatten ↔ _
    rw [mem_flatten_snd]
    constructor
    · rintro ⟨p, hp, hxp⟩
      rcases (mem_aset_iff s.map b ch' p hi.map_keys_nodup).mp hp with ⟨h1, hne⟩ | h1
      · have hxr : x ∈ allChainIds s := (mem_flatten_snd _ _).mpr ⟨p, h1, hxp⟩
        refine ⟨hxr, ?_⟩
        intro he
        subst he
        exact hne (hi.chain_bucket p h1 x hxp it hid)
      · subst h1
        have := (hbnodup.mem_erase_iff).mp hxp
        exact ⟨(mem_flatten_snd _ _).mpr ⟨(b, mapGet s.map b),
          alook_mem _ _ _ hchainb, this.2⟩, this.1⟩
    · rintro ⟨hxr, hne⟩
      obtain ⟨p, hp, hxp⟩ := (mem_flatten_snd _ _).mp hxr
      by_cases hpb : p.1 = b
      · have hpch : p.2 = mapGet s.map b := by
          have := entry_alook s.map p hi.map_keys_nodup hp
          rw [hpb, hchainb] at this
          exact (Option.some_inj.mp this).symm
        refine ⟨(b, ch'), ?_, ?_⟩
        · exact (mem_aset_iff s.map b ch' _ hi.map_keys_nodup).mpr (Or.inr rfl)
        · show x ∈ ch'
          rw [hch]
          exact (hbnodup.mem_erase_iff).mpr ⟨hne, hpch ▸ hxp⟩
      · exact ⟨p, (mem_aset_iff s.map b ch' p hi.map_keys_nodup).mpr
          (Or.inl ⟨hp, hpb⟩), hxp⟩
  have hmid : CInv H s_mid := by
    refine ⟨hi.buckets_pos, ?_, ?_, ?_, ?_, ?_, ?_, ?_, hi.items_keys_nodup,
      hi.items_bound, hi.frame_le, ?_, ?_, ?_, ?_, ?_⟩
    · exact keys_aset_nodup s.map b ch' hi.map_keys_nodup
    · intro p hp
      rcases (mem_aset_iff s.map b ch' p hi.map_keys_nodup).mp hp with ⟨h1, _⟩ | h1
      · exact hi.chain_nodup p h1
      · subst h1
        exact hbnodup.erase id
    · intro x hx
      exact hi.chain_live x ((hmemA x).mp hx).1
    · intro p hp x hxp it0 hit0
      rcases (mem_aset_iff s.map b ch' p hi.map_keys_nodup).mp hp with ⟨h1, _⟩ | h1
      · exact hi.chain_bucket p h1 x hxp it0 hit0
      · subst h1
        show b = it0.hash % s.buckets
        have hxb : x ∈ mapGet s.map b := ((hbnodup.mem_erase_iff).mp hxp).2
        exact hi.chain_bucket (b, mapGet s.map b) (alook_mem _ _ _ hchainb)
          x hxb it0 hit0
    · intro x
      rw [hmemA x]
      show _ ↔ x ∈ rest
      rw [hi.resident_iff_queue x, hque]
      simp only [List.mem_cons]
      constructor
      · rintro ⟨h1 | h1, hne⟩
        · exact absurd h1 hne
        · exact h1
      · intro h1
        exact ⟨Or.inr h1, fun he => hidrest (he ▸ h1)⟩
    · show rest.Nodup
      have := hi.queue_nodup
      rw [hque] at this
      exact (List.nodup_cons.mp this).2
    · show (s.promote.map Prod.fst).Nodup
      exact hi.promote_keys_nodup
    · intro x hx
      show x ∈ rest
      have : x ∈ promoteAll s := hx
      rw [promoteAll, hprom] at this
      simp at this
    · show (promoteAll s).Nodup
      exact hi.promote_nodup
    · intro x hx
      have : x ∈ promoteAll s := hx
      rw [promoteAll, hprom] at this
      simp at this
    · show (rest.filter (fun x => decide (x ∉ promoteAll s_mid))).Pairwise _
      have hpn : promoteAll s_mid = [] := by
        show promoteAll s = []
        rw [promoteAll, hprom]
        rfl
      have h1 : rest.filter (fun x => decide (x ∉ promoteAll s_mid)) = rest := by
        apply List.filter_eq_self.mpr
        intro a _
        rw [hpn]
        simp
      rw [h1]
      have h2 := hi.suffix_cur
      rw [filter_promoteAll_nil s hprom, hque] at h2
      exact (List.pairwise_cons.mp h2).2
    · show s.cache_size - contrib H it = mapSum H s.items (aset s.map b ch')
      have h1 := mapSum_aset H s.items s.map b ch'
      have h2 := chainSum_erase H s.items (mapGet s.map b) id hidb
      have h3 : contribOf H s.items id = contrib H it := by
        unfold contribOf
        rw [hid]
      rw [← hch] at h2
      rw [h3] at h2
      have h4 := hi.size_inv
      omega
  have hnr : id ∉ allChainIds s_mid := by
    rw [hmemA id]
    tauto
  have hdec := cinv_dec hmid id (fun it0 _ => Or.inr hnr)
  have hfields := dec_ref_item_fields s_mid id
  have hev : evictHead H s id it rest = dec_ref_item s_mid id := rfl
  rw [hev]
  refine ⟨hdec, ?_, ?_, ?_, rfl⟩
  · rw [hfields.2.1]
  · rw [hfields.2.2.1]
    exact hprom
  · rw [hfields.2.2.2.1]

/-- Unfolding equation of `cutLoop` at positive fuel. -/
theorem cutLoop_succ {K : Type} (H maxSize fuel : Nat) (s : Cache K) :
    cutLoop H maxSize (fuel + 1) s =
      (if s.cache_size ≤ maxSize then (s, [])
       else
         match s.queue with
         | [] => (s, [])
         | id :: rest =>
           match alook s.items id with
           | none => (s, [])
           | some it =>
             if it.last_used_frame = s.cur_frame then (s, [])
             else
               ((cutLoop H maxSize fuel (evictHead H s id it rest)).1,
                (id, it) :: (cutLoop H maxSize fuel (evictHead H s id it rest)).2)) := rfl

/-- The eviction loop: preserves the invariant, evicts only items not used
this frame, and stops under budget, at queue exhaustion, or at the first
current-frame item — in which case everything left in the queue was used
this frame. -/
theorem cutLoop_spec {K : Type} (H maxSize : Nat) :
    ∀ (fuel : Nat) (s : Cache K), CInv H s → s.promote = [] →
    fuel = s.queue.length →
    CInv H (cutLoop H maxSize fuel s).1 ∧
    (cutLoop H maxSize fuel s).1.promote = [] ∧
    (cutLoop H maxSize fuel s).1.cur_frame = s.cur_frame ∧
    (∀ pr ∈ (cutLoop H maxSize fuel s).2, pr.2.last_used_frame ≠ s.cur_frame) ∧
    ((cutLoop H maxSize fuel s).1.cache_size ≤ maxSize ∨
      ∀ id ∈ (cutLoop H maxSize fuel s).1.queue,
        frameOf (cutLoop H maxSize fuel s).1 id = s.cur_frame)
  | 0, s, hi, hprom, hfuel => by
    have hq : s.queue = [] := by
      cases hq : s.queue with
      | nil => rfl
      | cons a l =>
        rw [hq] at hfuel
        simp at hfuel
    refine ⟨hi, hprom, rfl, by simp [cutLoop], Or.inr ?_⟩
    intro id hid
    have hid2 : id ∈ s.queue := hid
    rw [hq] at hid2
    cases hid2
  | fuel + 1, s, hi, hprom, hfuel => by
    show CInv H (cutLoop H maxSize (fuel + 1) s).1 ∧ _
    by_cases hsz : s.cache_size ≤ maxSize
    · have he : cutLoop H maxSize (fuel + 1) s = (s, []) := by
        unfold cutLoop
        rw [if_pos hsz]
      rw [he]
      exact ⟨hi, hprom, rfl, by simp, Or.inl hsz⟩
    · cases hq : s.queue with
      | nil =>
        have he : cutLoop H maxSize (fuel + 1) s = (s, []) := by
          rw [cutLoop_succ, if_neg hsz]
          simp only [hq]
        rw [he]
        refine ⟨hi, hprom, rfl, by simp, Or.inr ?_⟩
        intro id hid
        have hid2 : id ∈ s.queue := hid
        rw [hq] at hid2
        cases hid2
      | cons id rest =>
        have hidq : id ∈ s.queue := by
          rw [hq]
          simp
        obtain ⟨it, hit⟩ :=
          hi.chain_live id ((hi.resident_iff_queue id).mpr hidq)
        by_cases hf : it.last_used_frame = s.cur_frame
        · have he : cutLoop H maxSize (fuel + 1) s = (s, []) := by
            rw [cutLoop_succ, if_neg hsz]
            simp only [hq, hit]
            rw [if_pos hf]
          rw [he]
          refine ⟨hi, hprom, rfl, by simp, Or.inr ?_⟩
          have hpw := hi.suffix_cur
          rw [filter_promoteAll_nil s hprom, hq] at hpw
          have hhead : frameOf s id = s.cur_frame := by
            unfold frameOf
            rw [hit]
            exact hf
          intro x hx
          have hx2 : x ∈ s.queue := hx
          rw [hq] at hx2
          rcases List.mem_cons.mp hx2 with h1 | h1
          · subst h1
            exact hhead
          · exact (List.pairwise_cons.mp hpw).1 x h1 hhead
        · obtain ⟨hinv', hq', hp', hc', _⟩ :=
            cinv_evictHead hi id it rest hprom hq hit
          have hfuel' : fuel = (evictHead H s id it rest).queue.length := by
            rw [hq']
            rw [hq] at hfuel
            simpa using hfuel
          have ih := cutLoop_spec H maxSize fuel (evictHead H s id it rest)
            hinv' hp' hfuel'
          have he : cutLoop H maxSize (fuel + 1) s =
              ((cutLoop H maxSize fuel (evictHead H s id it rest)).1,
               (id, it) :: (cutLoop H maxSize fuel (evictHead H s id it rest)).2) := by
            rw [cutLoop_succ, if_neg hsz]
            simp only [hq, hit]
            rw [if_neg hf]
          rw [he]
          refine ⟨ih.1, ih.2.1, ?_, ?_, ?_⟩
          · show (cutLoop H maxSize fuel (evictHead H s id it rest)).1.cur_frame = s.cur_frame
            rw [ih.2.2.1, hc']
          · intro pr hpr
            rcases List.mem_cons.mp hpr with h1 | h1
            · subst h1
              exact hf
            · have := ih.2.2.2.1 pr h1
              rw [hc'] at this
              exact this
          · rcases ih.2.2.2.2 with h1 | h1
            · exact Or.inl h1
            · refine Or.inr ?_
              intro x hx
              have := h1 x hx
              rw [hc'] at this
              exact this

theorem frameOf_eq_some {K : Type} (s : Cache K) (x : Nat) (it : CacheItem K)
    (h : alook s.items x = some it) : frameOf s x = it.last_used_frame := by
  unfold frameOf
  rw [h]

theorem frameOf_eq_none {K : Type} (s : Cache K) (x : Nat)
    (h : alook s.items x = none) : frameOf s x = 0 := by
  unfold frameOf
  rw [h]

/-- Advancing the frame counter (with drained promote lists) preserves the
invariant: every stamp is now strictly in the past. -/
theorem cinv_frame_inc {K : Type} {H : Nat} {s : Cache K} (hi : CInv H s)
    (hprom : s.promote = []) :
    CInv H { s with cur_frame := s.cur_frame + 1 } := by
  set s' : Cache K := { s with cur_frame := s.cur_frame + 1 } with hs'
  have hframe : ∀ x, frameOf s' x = frameOf s x := fun x => rfl
  have hnone : ∀ x, frameOf s' x ≠ s'.cur_frame := by
    intro x
    show frameOf s x ≠ s.cur_frame + 1
    cases hx : alook s.items x with
    | none =>
      rw [frameOf_eq_none s x hx]
      omega
    | some it =>
      rw [frameOf_eq_some s x it hx]
      have := hi.frame_le x it hx
      omega
  refine ⟨hi.buckets_pos, hi.map_keys_nodup, hi.chain_nodup, hi.chain_live,
    hi.chain_bucket, hi.resident_iff_queue, hi.queue_nodup,
    hi.promote_keys_nodup, hi.items_keys_nodup, hi.items_bound, ?_,
    hi.promote_sub, hi.promote_nodup, ?_, ?_, hi.size_inv⟩
  · intro x it hit
    have := hi.frame_le x it hit
    show it.last_used_frame ≤ s.cur_frame + 1
    omega
  · intro x hx
    exfalso
    have : x ∈ promoteAll s := hx
    rw [promoteAll, hprom] at this
    simp at this
  · refine List.Pairwise.imp_of_mem ?_ hi.suffix_cur
    intro a b2 _ _ _
    intro hfa
    exact absurd hfa (hnone a)

/-- `ass_cache_cut` preserves the invariant; no evicted item was used this
frame; afterwards either the budget is met or everything still resident was
used in the frame that just ended; and the frame counter advances. -/
theorem cinv_cut {K : Type} {H : Nat} {s : Cache K} (hi : CInv H s)
    (maxSize : Nat) :
    CInv H (ass_cache_cut H s maxSize).1 ∧
    (∀ pr ∈ (ass_cache_cut H s maxSize).2,
      pr.2.last_used_frame ≠ s.cur_frame) ∧
    ((ass_cache_cut H s maxSize).1.cache_size ≤ maxSize ∨
      ∀ id ∈ allChainIds (ass_cache_cut H s maxSize).1,
        frameOf (ass_cache_cut H s maxSize).1 id = s.cur_frame) ∧
    (ass_cache_cut H s maxSize).1.cur_frame = s.cur_frame + 1 := by
  set s1 : Cache K :=
    { s with queue := promoteDrain s.queue (promoteAll s), promote := [] } with hs1
  have hdrain := promoteDrain_spec (frameOf s) s.cur_frame (promoteAll s)
    s.queue hi.queue_nodup hi.promote_nodup hi.promote_sub hi.promote_frame
    hi.suffix_cur
  have hinv1 : CInv H s1 := by
    refine ⟨hi.buckets_pos, hi.map_keys_nodup, hi.chain_nodup, hi.chain_live,
      hi.chain_bucket, ?_, hdrain.1, ?_, hi.items_keys_nodup, hi.items_bound,
      hi.frame_le, ?_, ?_, ?_, ?_, hi.size_inv⟩
    · intro x
      show x ∈ allChainIds s ↔ x ∈ promoteDrain s.queue (promoteAll s)
      rw [hi.resident_iff_queue x]
      exact (hdrain.2.1 x).symm
    · show (([] : List (Nat × List Nat)).map Prod.fst).Nodup
      simp
    · intro x hx
      have hpn : promoteAll s1 = [] := rfl
      rw [hpn] at hx
      cases hx
    · show (promoteAll s1).Nodup
      have hpn : promoteAll s1 = [] := rfl
      rw [hpn]
      simp
    · intro x hx
      have hpn : promoteAll s1 = [] := rfl
      rw [hpn] at hx
      cases hx
    · have hpn : promoteAll s1 = [] := rfl
      show (s1.queue.filter (fun id => decide (id ∉ promoteAll s1))).Pairwise _
      rw [hpn]
      have h1 : s1.queue.filter (fun id => decide (id ∉ ([] : List Nat))) = s1.queue := by
        apply List.filter_eq_self.mpr
        intro a _
        simp
      rw [h1]
      exact hdrain.2.2
  have hprom1 : s1.promote = [] := rfl
  have hspec := cutLoop_spec H maxSize s1.queue.length s1 hinv1 hprom1 rfl
  set r := cutLoop H maxSize s1.queue.length s1 with hr
  have hcut_eq : ass_cache_cut H s maxSize =
      ({ r.1 with cur_frame := r.1.cur_frame + 1 }, r.2) := rfl
  rw [hcut_eq]
  have hc1 : s1.cur_frame = s.cur_frame := rfl
  refine ⟨?_, ?_, ?_, ?_⟩
  · exact cinv_frame_inc hspec.1 hspec.2.1
  · intro pr hpr
    have := hspec.2.2.2.1 pr hpr
    rw [hc1] at this
    exact this
  · rcases hspec.2.2.2.2 with h1 | h1
    · exact Or.inl h1
    · refine Or.inr ?_
      intro id hid
      have hid2 : id ∈ allChainIds r.1 := hid
      have hidq : id ∈ r.1.queue := (hspec.1.resident_iff_queue id).mp hid2
      have := h1 id hidq
      rw [hc1] at this
      exact this
  · show r.1.cur_frame + 1 = s.cur_frame + 1
    rw [hspec.2.2.1, hc1]

/-- `dec_ref_item` reduced at a live binding. -/
theorem dec_ref_item_eq_of_some {K : Type} (s : Cache K) (id : Nat)
    (it : CacheItem K) (h : alook s.items id = some it) :
    dec_ref_item s id =
      (if it.ref_count - 1 = 0 then
        { s with items := aerase s.items id, destroy_log := id :: s.destroy_log }
      else
        { s with items := aset s.items id { it with ref_count := it.ref_count - 1 } }) := by
  unfold dec_ref_item
  rw [h]

/-- `dec_ref_item` reduced at a dangling pointer. -/
theorem dec_ref_item_eq_of_none {K : Type} (s : Cache K) (id : Nat)
    (h : alook s.items id = none) : dec_ref_item s id = s := by
  unfold dec_ref_item
  rw [h]

/-- Item-level facts preserved by `dec_ref_item` in any state. -/
theorem dec_ref_item_props {K : Type} (s : Cache K) (id : Nat)
    (h1 : (s.items.map Prod.fst).Nodup)
    (h2 : ∀ x ∈ s.items.map Prod.fst, x < s.next_id)
    (h3 : ∀ x it, alook s.items x = some it →
      it.last_used_frame ≤ s.cur_frame) :
    ((dec_ref_item s id).items.map Prod.fst).Nodup ∧
    (∀ x ∈ (dec_ref_item s id).items.map Prod.fst, x < s.next_id) ∧
    (∀ x it, alook (dec_ref_item s id).items x = some it →
      it.last_used_frame ≤ s.cur_frame) := by
  cases h : alook s.items id with
  | none =>
    rw [dec_ref_item_eq_of_none s id h]
    exact ⟨h1, h2, h3⟩
  | some it =>
    rw [dec_ref_item_eq_of_some s id it h]
    by_cases hz : it.ref_count - 1 = 0
    · rw [if_pos hz]
      refine ⟨keys_aerase_nodup s.items id h1, ?_, ?_⟩
      · intro x hx
        exact h2 x ((keys_aerase_sublist s.items id).subset hx)
      · intro x it0 hit0
        exact h3 x it0 (alook_aerase_some s.items id x it0 hit0)
    · rw [if_neg hz]
      refine ⟨keys_aset_nodup s.items id _ h1, ?_, ?_⟩
      · intro x hx
        rcases (mem_keys_aset_iff s.items id _ x).mp hx with hx1 | hx1
        · exact h2 x hx1
        · subst hx1
          exact h2 x (List.mem_map.mpr ⟨(x, it), alook_mem _ _ _ h, rfl⟩)
      · intro x it0 hit0
        by_cases he : x = id
        · subst he
          rw [alook_aset_self] at hit0
          cases hit0
          exact h3 x it h
        · rw [alook_aset_ne s.items id x _ (fun e => he e.symm)] at hit0
          exact h3 x it0 hit0

/-- Unfolding equation of `emptyChain` on a cons. -/
theorem emptyChain_cons {K : Type} (H id : Nat) (rest : List Nat)
    (s : Cache K) :
    emptyChain H (id :: rest) s =
      (match alook s.items id with
       | none => emptyChain H rest s
       | some it => emptyChain H rest
           (dec_ref_item { s with cache_size := s.cache_size - contrib H it } id)) := rfl

/-- `emptyChain` preserves the item-level facts and the control fields. -/
theorem emptyChain_props {K : Type} (H : Nat) :
    ∀ (chain : List Nat) (s : Cache K),
    (s.items.map Prod.fst).Nodup →
    (∀ x ∈ s.items.map Prod.fst, x < s.next_id) →
    (∀ x it, alook s.items x = some it →
      it.last_used_frame ≤ s.cur_frame) →
    ((emptyChain H chain s).items.map Prod.fst).Nodup ∧
    (∀ x ∈ (emptyChain H chain s).items.map Prod.fst,
      x < (emptyChain H chain s).next_id) ∧
    (∀ x it, alook (emptyChain H chain s).items x = some it →
      it.last_used_frame ≤ (emptyChain H chain s).cur_frame) ∧
    (emptyChain H chain s).buckets = s.buckets ∧
    (emptyChain H chain s).cur_frame = s.cur_frame ∧
    (emptyChain H chain s).next_id = s.next_id
  | [], s, h1, h2, h3 => ⟨h1, h2, h3, rfl, rfl, rfl⟩
  | id :: rest, s, h1, h2, h3 => by
    cases h : alook s.items id with
    | none =>
      have hgoal : emptyChain H (id :: rest) s = emptyChain H rest s := by
        rw [emptyChain_cons, h]
      rw [hgoal]
      exact emptyChain_props H rest s h1 h2 h3
    | some it =>
      set s0 : Cache K := { s with cache_size := s.cache_size - contrib H it } with hs0
      have hgoal : emptyChain H (id :: rest) s =
          emptyChain H rest (dec_ref_item s0 id) := by
        rw [emptyChain_cons, h]
      rw [hgoal]
      have hd := dec_ref_item_props s0 id h1 h2 h3
      have hf := dec_ref_item_fields s0 id
      have ih := emptyChain_props H rest (dec_ref_item s0 id) hd.1
        (by rw [hf.2.2.2.2.2.2]; exact hd.2.1)
        (by rw [hf.2.2.2.1]; exact hd.2.2)
      refine ⟨ih.1, ih.2.1, ih.2.2.1, ?_, ?_, ?_⟩
      · rw [ih.2.2.2.1, hf.2.2.2.2.2.1]
      · rw [ih.2.2.2.2.1, hf.2.2.2.1]
      · rw [ih.2.2.2.2.2, hf.2.2.2.2.2.2]

/-- The fold of `emptyChain` over all chains preserves the same facts. -/
theorem emptyFold_props {K : Type} (H : Nat) :
    ∀ (chains : List (List Nat)) (s : Cache K),
    (s.items.map Prod.fst).Nodup →
    (∀ x ∈ s.items.map Prod.fst, x < s.next_id) →
    (∀ x it, alook s.items x = some it →
      it.last_used_frame ≤ s.cur_frame) →
    (((chains.foldl (fun acc chain => emptyChain H chain acc) s).items.map
        Prod.fst).Nodup) ∧
    (∀ x ∈ (chains.foldl (fun acc chain => emptyChain H chain acc) s).items.map
        Prod.fst,
      x < (chains.foldl (fun acc chain => emptyChain H chain acc) s).next_id) ∧
    (∀ x it, alook (chains.foldl (fun acc chain => emptyChain H chain acc)
        s).items x = some it →
      it.last_used_frame ≤ (chains.foldl
        (fun acc chain => emptyChain H chain acc) s).cur_frame) ∧
    (chains.foldl (fun acc chain => emptyChain H chain acc) s).buckets = s.buckets ∧
    (chains.foldl (fun acc chain => emptyChain H chain acc) s).cur_frame = s.cur_frame ∧
    (chains.foldl (fun acc chain => emptyChain H chain acc) s).next_id = s.next_id
  | [], s, h1, h2, h3 => ⟨h1, h2, h3, rfl, rfl, rfl⟩
  | chain :: rest, s, h1, h2, h3 => by
    have he := emptyChain_props H chain s h1 h2 h3
    have ih := emptyFold_props H rest (emptyChain H chain s) he.1 he.2.1 he.2.2.1
    have hfold : List.foldl (fun acc chain => emptyChain H chain acc) s (chain :: rest) =
        List.foldl (fun acc chain => emptyChain H chain acc) (emptyChain H chain s) rest := rfl
    rw [hfold]
    refine ⟨ih.1, ih.2.1, ih.2.2.1, ?_, ?_, ?_⟩
    · rw [ih.2.2.2.1, he.2.2.2.1]
    · rw [ih.2.2.2.2.1, he.2.2.2.2.1]
    · rw [ih.2.2.2.2.2, he.2.2.2.2.2]

/-- `ass_cache_empty` preserves the invariant. -/
theorem cinv_empty {K : Type} {H : Nat} {s : Cache K} (hi : CInv H s) :
    CInv H (ass_cache_empty H s) := by
  have hp := emptyFold_props H (s.map.map Prod.snd) s hi.items_keys_nodup
    hi.items_bound hi.frame_le
  refine ⟨?_, ?_, ?_, ?_, ?_, ?_, ?_, ?_, hp.1, hp.2.1, hp.2.2.1, ?_, ?_, ?_, ?_, ?_⟩
  · show 0 < ((s.map.map Prod.snd).foldl
      (fun acc chain => emptyChain H chain acc) s).buckets
    rw [hp.2.2.2.1]
    exact hi.buckets_pos
  · show (([] : List (Nat × List Nat)).map Prod.fst).Nodup
    simp
  · intro p hp2
    exact (List.not_mem_nil p hp2).elim
  · intro x hx
    exact (List.not_mem_nil x hx).elim
  · intro p hp2
    exact (List.not_mem_nil p hp2).elim
  · intro x
    constructor
    · intro hx
      exact (List.not_mem_nil x hx).elim
    · intro hx
      exact (List.not_mem_nil x hx).elim
  · exact List.nodup_nil
  · show (([] : List (Nat × List Nat)).map Prod.fst).Nodup
    simp
  · intro x hx
    exact (List.not_mem_nil x hx).elim
  · exact List.nodup_nil
  · intro x hx
    exact (List.not_mem_nil x hx).elim
  · exact List.Pairwise.nil
  · rfl

/-- `ass_cache_done` preserves the invariant (the shutdown flag plays no
role in any structural field). -/
theorem cinv_done {K : Type} {H : Nat} {s : Cache K} (hi : CInv H s) :
    CInv H (ass_cache_done H s) := by
  have he := @cinv_empty K H s hi
  exact ⟨he.buckets_pos, he.map_keys_nodup, he.chain_nodup, he.chain_live,
    he.chain_bucket, he.resident_iff_queue, he.queue_nodup,
    he.promote_keys_nodup, he.items_keys_nodup, he.items_bound, he.frame_le,
    he.promote_sub, he.promote_nodup, he.promote_frame, he.suffix_cur,
    he.size_inv⟩

/-- Every cache operation preserves the structural invariant. -/
theorem step_cinv {K : Type} {desc : CacheDesc K} {H : Nat}
    {s t : Cache K} (hst : Step desc H s t) (hi : CInv H s) : CInv H t := by
  cases hst with
  | get client key aOk mOk =>
    cases hscan : scanChain desc s.items key (desc.hash_func key)
        (mapGet s.map (desc.hash_func key % s.buckets)) with
    | some id =>
      obtain ⟨it, hit, hmem, _, _⟩ := scanChain_some desc s.items key _ _ id hscan
      rw [ass_cache_get_hit_eq desc H client key s id it aOk mOk hscan hit]
      exact cinv_getHit hi client id it hit
        (mem_mapGet_allChainIds s _ id hmem)
    | none =>
      cases aOk with
      | false =>
        rw [ass_cache_get_noalloc_eq desc H client key s mOk hscan]
        exact hi
      | true =>
        cases mOk with
        | false =>
          rw [ass_cache_get_nomove_eq desc H client key s hscan]
          exact hi
        | true => exact cinv_getMiss desc client key hi hscan
  | inc id =>
    unfold ass_cache_inc_ref
    cases h : alook s.items id with
    | none => exact hi
    | some it =>
      show CInv H { s with items := aset s.items id { it with ref_count := it.ref_count + 1 } }
      exact cinv_update_meta hi id it { it with ref_count := it.ref_count + 1 }
        h rfl rfl rfl
  | dec id s2 hok => exact cinv_dec hi id hok
  | cut maxSize => exact (cinv_cut hi maxSize).1
  | empty => exact cinv_empty hi
  | done => exact cinv_done hi

/-- The invariant holds along any operation sequence. -/
theorem steps_cinv {K : Type} {desc : CacheDesc K} {H : Nat}
    {s t : Cache K} (hst : Steps desc H s t) (hi : CInv H s) : CInv H t := by
  induction hst with
  | refl => exact hi
  | tail _ h ih => exact step_cinv h ih

/-- Every reachable state satisfies the structural invariant. -/
theorem reachable_cinv {K : Type} {desc : CacheDesc K} {H : Nat}
    {s : Cache K} (hr : Reachable desc H s) : CInv H s :=
  steps_cinv hr (inv_create K H)

/-!
## Claim C2: `cut` respects the current frame
-/

/-- C2: `cut(M)` never evicts an item whose `last_used_frame` equals the
frame counter current when `cut` was entered, and afterwards either the
total size is at most `M` or every item remaining in the cache was last
used in that very frame. -/
theorem thm_C2_cut_current_frame {K : Type} (desc : CacheDesc K)
    (H : Nat) (s : Cache K) (M : Nat) (hr : Reachable desc H s) :
    (∀ pr ∈ (ass_cache_cut H s M).2, pr.2.last_used_frame ≠ s.cur_frame) ∧
    ((ass_cache_cut H s M).1.cache_size ≤ M ∨
      ∀ id ∈ allChainIds (ass_cache_cut H s M).1,
        frameOf (ass_cache_cut H s M).1 id = s.cur_frame) := by
  have hi := reachable_cinv hr
  have h := cinv_cut hi M
  exact ⟨h.2.1, h.2.2.1⟩

/-- Witness for C2: a cache holding one just-inserted item, cut to zero. -/
theorem thm_C2_cut_current_frame_witness :
    Reachable desc10 96
      (ass_cache_get desc10 96 0 5 true true (ass_cache_create Nat)).state ∧
    ((∀ pr ∈ (ass_cache_cut 96
        (ass_cache_get desc10 96 0 5 true true (ass_cache_create Nat)).state 0).2,
      pr.2.last_used_frame ≠
        (ass_cache_get desc10 96 0 5 true true (ass_cache_create Nat)).state.cur_frame) ∧
     ((ass_cache_cut 96
        (ass_cache_get desc10 96 0 5 true true (ass_cache_create Nat)).state 0).1.cache_size ≤ 0 ∨
      ∀ id ∈ allChainIds (ass_cache_cut 96
        (ass_cache_get desc10 96 0 5 true true (ass_cache_create Nat)).state 0).1,
        frameOf (ass_cache_cut 96
          (ass_cache_get desc10 96 0 5 true true (ass_cache_create Nat)).state 0).1 id =
        (ass_cache_get desc10 96 0 5 true true (ass_cache_create Nat)).state.cur_frame)) :=
  ⟨Steps.tail (Steps.refl _) (Step.get 0 5 true true _),
   thm_C2_cut_current_frame desc10 96 _ 0
     (Steps.tail (Steps.refl _) (Step.get 0 5 true true _))⟩

/-!
## Claim C5: size accounting
-/

/-- C5: at every point between operations the size counter equals the sum
of the resident items' contributions, an item of self-reported size 1
contributing just 1 and any other contributing its size plus the header
bytes; `get` adds and `cut`/`empty` subtract that same contribution, and
after `empty` the counter is zero. -/
theorem thm_C5_size_invariant {K : Type} (desc : CacheDesc K)
    (H : Nat) (s : Cache K) (hr : Reachable desc H s) :
    s.cache_size = mapSum H s.items s.map ∧
    (∀ it : CacheItem K, contrib H it =
      it.size + (if it.size = 1 then 0 else H)) ∧
    (∀ client key, scanChain desc s.items key (desc.hash_func key)
        (mapGet s.map (desc.hash_func key % s.buckets)) = none →
      (ass_cache_get desc H client key true true s).state.cache_size =
        s.cache_size + contribSize H (desc.construct_func key)) ∧
    (ass_cache_empty H s).cache_size = 0 := by
  have hi := reachable_cinv hr
  refine ⟨hi.size_inv, fun it => rfl, ?_, rfl⟩
  intro client key hmiss
  rw [ass_cache_get_miss_eq desc H client key s hmiss]
  rfl

/-- Witness for C5: the invariant after one insertion of size 10. -/
theorem thm_C5_size_invariant_witness :
    Reachable desc10 96
      (ass_cache_get desc10 96 0 5 true true (ass_cache_create Nat)).state ∧
    (ass_cache_get desc10 96 0 5 true true (ass_cache_create Nat)).state.cache_size =
      mapSum 96 (ass_cache_get desc10 96 0 5 true true (ass_cache_create Nat)).state.items
        (ass_cache_get desc10 96 0 5 true true (ass_cache_create Nat)).state.map :=
  ⟨Steps.tail (Steps.refl _) (Step.get 0 5 true true _),
   (thm_C5_size_invariant desc10 96 _
     (Steps.tail (Steps.refl _) (Step.get 0 5 true true _))).1⟩

/-!
## Key-level invariant: preservation machinery
-/

/-- `items'` refines `items`: every binding in `items'` was already bound
in `items` with the same key and hash (only counts/sizes/frames moved). -/
def ItemsRefine {K : Type} (items' items : List (Nat × CacheItem K)) : Prop :=
  ∀ x it', alook items' x = some it' →
    ∃ it, alook items x = some it ∧ it.key = it'.key ∧ it.hash = it'.hash

theorem itemsRefine_refl {K : Type} (items : List (Nat × CacheItem K)) :
    ItemsRefine items items :=
  fun x it' h => ⟨it', h, Eq.refl _, Eq.refl _⟩

theorem ItemsRefine.trans {K : Type}
    {a b c : List (Nat × CacheItem K)}
    (h1 : ItemsRefine a b) (h2 : ItemsRefine b c) : ItemsRefine a c := by
  intro x it' hx
  obtain ⟨it1, h3, h4, h5⟩ := h1 x it' hx
  obtain ⟨it2, h6, h7, h8⟩ := h2 x it1 h3
  exact ⟨it2, h6, h7.trans h4, h8.trans h5⟩

theorem refine_aset_meta {K : Type} (items : List (Nat × CacheItem K))
    (id : Nat) (it it2 : CacheItem K) (hid : alook items id = some it)
    (hk : it2.key = it.key) (hh : it2.hash = it.hash) :
    ItemsRefine (aset items id it2) items := by
  intro x it' hx
  by_cases he : x = id
  · subst he
    rw [alook_aset_self] at hx
    cases hx
    exact ⟨it, hid, hk.symm, hh.symm⟩
  · rw [alook_aset_ne items id x it2 (fun e => he e.symm)] at hx
    exact ⟨it', hx, rfl, rfl⟩

theorem refine_aerase {K : Type} (items : List (Nat × CacheItem K))
    (id : Nat) : ItemsRefine (aerase items id) items := by
  intro x it' hx
  exact ⟨it', alook_aerase_some items id x it' hx, rfl, rfl⟩

theorem dec_ref_item_refines {K : Type} (s : Cache K) (id : Nat) :
    ItemsRefine (dec_ref_item s id).items s.items := by
  cases h : alook s.items id with
  | none =>
    rw [dec_ref_item_eq_of_none s id h]
    exact itemsRefine_refl s.items
  | some it =>
    rw [dec_ref_item_eq_of_some s id it h]
    by_cases hz : it.ref_count - 1 = 0
    · rw [if_pos hz]
      exact refine_aerase s.items id
    · rw [if_neg hz]
      exact refine_aset_meta s.items id it _ h rfl rfl

/-- `KInv` transfers backwards along an items refinement whenever the
resident set does not grow. -/
theorem kinv_of_refine {K : Type} {desc : CacheDesc K} {s' s : Cache K}
    (hk : KInv desc s) (href : ItemsRefine s'.items s.items)
    (hres : ∀ x, x ∈ allChainIds s' → x ∈ allChainIds s) : KInv desc s' := by
  constructor
  · intro id it' hit'
    obtain ⟨it, h1, h2, h3⟩ := href id it' hit'
    rw [← h2, ← h3]
    exact hk.key_hash id it h1
  · intro id1 id2 it1 it2 hm1 hm2 hl1 hl2 hc
    obtain ⟨it1', h1, h2, h3⟩ := href id1 it1 hl1
    obtain ⟨it2', h4, h5, h6⟩ := href id2 it2 hl2
    refine hk.unique_keys id1 id2 it1' it2' (hres _ hm1) (hres _ hm2) h1 h4 ?_
    rw [h2, h5]
    exact hc

/-- `emptyChain` refines the items. -/
theorem emptyChain_refines {K : Type} (H : Nat) :
    ∀ (chain : List Nat) (s : Cache K),
    ItemsRefine (emptyChain H chain s).items s.items
  | [], s => itemsRefine_refl s.items
  | id :: rest, s => by
    cases h : alook s.items id with
    | none =>
      have hgoal : emptyChain H (id :: rest) s = emptyChain H rest s := by
        rw [emptyChain_cons, h]
      rw [hgoal]
      exact emptyChain_refines H rest s
    | some it =>
      set s0 : Cache K := { s with cache_size := s.cache_size - contrib H it } with hs0
      have hgoal : emptyChain H (id :: rest) s =
          emptyChain H rest (dec_ref_item s0 id) := by
        rw [emptyChain_cons, h]
      rw [hgoal]
      have h1 := emptyChain_refines H rest (dec_ref_item s0 id)
      have h2 : ItemsRefine (dec_ref_item s0 id).items s.items :=
        dec_ref_item_refines s0 id
      exact h1.trans h2

/-- The `empty` fold refines the items. -/
theorem emptyFold_refines {K : Type} (H : Nat) :
    ∀ (chains : List (List Nat)) (s : Cache K),
    ItemsRefine ((chains.foldl (fun acc chain => emptyChain H chain acc) s).items)
      s.items
  | [], s => itemsRefine_refl s.items
  | chain :: rest, s => by
    have hfold : List.foldl (fun acc chain => emptyChain H chain acc) s (chain :: rest) =
        List.foldl (fun acc chain => emptyChain H chain acc) (emptyChain H chain s) rest := rfl
    rw [hfold]
    exact (emptyFold_refines H rest (emptyChain H chain s)).trans
      (emptyChain_refines H chain s)

theorem allChainIds_congr {K : Type} (s' s : Cache K) (h : s'.map = s.map) :
    allChainIds s' = allChainIds s := by
  unfold allChainIds
  rw [h]

/-- Eviction only shrinks the resident set. -/
theorem evictHead_resident_sub {K : Type} {H : Nat} {s : Cache K}
    (hi : CInv H s) (id : Nat) (it : CacheItem K) (rest : List Nat) :
    ∀ x, x ∈ allChainIds (evictHead H s id it rest) → x ∈ allChainIds s := by
  intro x hx
  set b := it.hash % s.buckets with hb
  set ch' := (mapGet s.map b).erase id with hch
  set s_mid : Cache K :=
    { s with queue := rest, map := aset s.map b ch',
             cache_size := s.cache_size - contrib H it } with hsmid
  have hev : evictHead H s id it rest = dec_ref_item s_mid id := rfl
  rw [hev] at hx
  have hmapeq : (dec_ref_item s_mid id).map = s_mid.map :=
    (dec_ref_item_fields s_mid id).1
  rw [allChainIds_congr _ s_mid hmapeq] at hx
  have hx2 : x ∈ ((aset s.map b ch').map Prod.snd).flatten := hx
  obtain ⟨p, hp, hxp⟩ := (mem_flatten_snd _ _).mp hx2
  rcases (mem_aset_iff s.map b ch' p hi.map_keys_nodup).mp hp with ⟨h1, _⟩ | h1
  · exact (mem_flatten_snd _ _).mpr ⟨p, h1, hxp⟩
  · subst h1
    have : x ∈ mapGet s.map b := List.erase_subset _ _ hxp
    exact mem_mapGet_allChainIds s b x this

/-- The eviction loop preserves the key-level invariant. -/
theorem cutLoop_kinv {K : Type} {desc : CacheDesc K} (H maxSize : Nat) :
    ∀ (fuel : Nat) (s : Cache K), CInv H s → s.promote = [] →
    fuel = s.queue.length → KInv desc s →
    KInv desc (cutLoop H maxSize fuel s).1
  | 0, s, _, _, _, hk => hk
  | fuel + 1, s, hi, hprom, hfuel, hk => by
    by_cases hsz : s.cache_size ≤ maxSize
    · rw [show cutLoop H maxSize (fuel + 1) s = (s, []) from by
        rw [cutLoop_succ, if_pos hsz]]
      exact hk
    · cases hq : s.queue with
      | nil =>
        rw [show cutLoop H maxSize (fuel + 1) s = (s, []) from by
          rw [cutLoop_succ, if_neg hsz]
          simp only [hq]]
        exact hk
      | cons id rest =>
        have hidq : id ∈ s.queue := by
          rw [hq]
          simp
        obtain ⟨it, hit⟩ :=
          hi.chain_live id ((hi.resident_iff_queue id).mpr hidq)
        by_cases hf : it.last_used_frame = s.cur_frame
        · rw [show cutLoop H maxSize (fuel + 1) s = (s, []) from by
            rw [cutLoop_succ, if_neg hsz]
            simp only [hq, hit]
            rw [if_pos hf]]
          exact hk
        · obtain ⟨hinv', hq', hp', hc', hitems'⟩ :=
            cinv_evictHead hi id it rest hprom hq hit
          have hfuel' : fuel = (evictHead H s id it rest).queue.length := by
            rw [hq']
            rw [hq] at hfuel
            simpa using hfuel
          have hkev : KInv desc (evictHead H s id it rest) := by
            refine kinv_of_refine hk ?_ (evictHead_resident_sub hi id it rest)
            rw [hitems']
            exact dec_ref_item_refines _ id
          have ih := cutLoop_kinv H maxSize fuel (evictHead H s id it rest)
            hinv' hp' hfuel' hkev
          rw [show cutLoop H maxSize (fuel + 1) s =
              ((cutLoop H maxSize fuel (evictHead H s id it rest)).1,
               (id, it) :: (cutLoop H maxSize fuel (evictHead H s id it rest)).2) from by
            rw [cutLoop_succ, if_neg hsz]
            simp only [hq, hit]
            rw [if_neg hf]]
          exact ih

/-- The queue drain preserves the structural invariant (the standalone
form of the first half of `cinv_cut`). -/
theorem cinv_drain {K : Type} {H : Nat} {s : Cache K} (hi : CInv H s) :
    CInv H { s with queue := promoteDrain s.queue (promoteAll s),
                    promote := [] } := by
  set s1 : Cache K :=
    { s with queue := promoteDrain s.queue (promoteAll s), promote := [] } with hs1
  have hdrain := promoteDrain_spec (frameOf s) s.cur_frame (promoteAll s)
    s.queue hi.queue_nodup hi.promote_nodup hi.promote_sub hi.promote_frame
    hi.suffix_cur
  refine ⟨hi.buckets_pos, hi.map_keys_nodup, hi.chain_nodup, hi.chain_live,
    hi.chain_bucket, ?_, hdrain.1, ?_, hi.items_keys_nodup, hi.items_bound,
    hi.frame_le, ?_, ?_, ?_, ?_, hi.size_inv⟩
  · intro x
    show x ∈ allChainIds s ↔ x ∈ promoteDrain s.queue (promoteAll s)
    rw [hi.resident_iff_queue x]
    exact (hdrain.2.1 x).symm
  · show (([] : List (Nat × List Nat)).map Prod.fst).Nodup
    simp
  · intro x hx
    have hpn : promoteAll s1 = [] := rfl
    rw [hpn] at hx
    cases hx
  · show (promoteAll s1).Nodup
    have hpn : promoteAll s1 = [] := rfl
    rw [hpn]
    simp
  · intro x hx
    have hpn : promoteAll s1 = [] := rfl
    rw [hpn] at hx
    cases hx
  · have hpn : promoteAll s1 = [] := rfl
    show (s1.queue.filter (fun id => decide (id ∉ promoteAll s1))).Pairwise _
    rw [hpn]
    have h1 : s1.queue.filter (fun id => decide (id ∉ ([] : List Nat))) = s1.queue := by
      apply List.filter_eq_self.mpr
      intro a _
      simp
    rw [h1]
    exact hdrain.2.2

/-- The hit path preserves the key-level invariant. -/
theorem kinv_getHit {K : Type} {desc : CacheDesc K} {s : Cache K}
    (hk : KInv desc s) (client id : Nat) (it : CacheItem K)
    (hid : alook s.items id = some it) :
    KInv desc (getHit client s id it) := by
  refine kinv_of_refine hk ?_ ?_
  · unfold getHit
    by_cases hf : it.last_used_frame = s.cur_frame
    · rw [if_pos hf]
      exact itemsRefine_refl s.items
    · rw [if_neg hf]
      exact refine_aset_meta s.items id it _ hid rfl rfl
  · intro x hx
    have heq := allChainIds_congr (getHit client s id it) s
      (getHit_fields client s id it).1
    rw [heq] at hx
    exact hx

/-- The miss path preserves the key-level invariant: the new item's stored
hash is the hash of its stored key, and it cannot collide with a resident
item — the full-chain scan that failed would have found it. -/
theorem kinv_getMiss {K : Type} {desc : CacheDesc K} {H : Nat}
    (client : Nat) (key : K) {s : Cache K} (hdo : DescOk desc)
    (hi : CInv H s) (hk : KInv desc s)
    (hmiss : scanChain desc s.items key (desc.hash_func key)
      (mapGet s.map (desc.hash_func key % s.buckets)) = none) :
    KInv desc (ass_cache_get desc H client key true true s).state := by
  rw [ass_cache_get_miss_eq desc H client key s hmiss]
  set nid := s.next_id with hnid
  set b := desc.hash_func key % s.buckets with hb
  set prep : CacheItem K := prepareItem desc key s.cur_frame with hprep
  set sz := desc.construct_func key with hsz
  set prep' : CacheItem K := { prep with size := sz } with hprep'
  have h0 : alook (insertNewItem desc key s).2.items nid =
      some prep := alook_aset_self _ _ _
  set s' : Cache K :=
    { finishConstruct H (insertNewItem desc key s).1 sz
        (insertNewItem desc key s).2 with
      construct_log := key :: s.construct_log } with hs'
  have hitems' : s'.items = aset (aset s.items nid prep) nid prep' := by
    show (finishConstruct H (insertNewItem desc key s).1 sz
      (insertNewItem desc key s).2).items = _
    unfold finishConstruct
    rw [show (insertNewItem desc key s).1 = nid from rfl, h0]
    rfl
  have hlook_self : alook s'.items nid = some prep' := by
    rw [hitems']
    exact alook_aset_self _ _ _
  have hlook_ne : ∀ x, x ≠ nid → alook s'.items x = alook s.items x := by
    intro x hx
    rw [hitems', alook_aset_ne _ _ _ _ (fun he => hx he.symm),
      alook_aset_ne _ _ _ _ (fun he => hx he.symm)]
  have hperm : List.Perm (allChainIds s') (nid :: allChainIds s) := by
    show List.Perm (((aset s.map b (nid :: mapGet s.map b)).map Prod.snd).flatten) _
    exact flatten_aset_push_perm s.map b nid
  have hmemA : ∀ x, x ∈ allChainIds s' ↔ x = nid ∨ x ∈ allChainIds s := by
    intro x
    rw [hperm.mem_iff, List.mem_cons]
  have hprepkey : prep'.key = key := rfl
  have hprephash : prep'.hash = desc.hash_func key := rfl
  have hclash : ∀ id2 it2, id2 ∈ allChainIds s → alook s.items id2 = some it2 →
      desc.compare_func key it2.key = true → False := by
    intro id2 it2 hm2 hl2 hc
    have hhash2 : it2.hash = desc.hash_func it2.key := hk.key_hash id2 it2 hl2
    have hhq : desc.hash_func key = desc.hash_func it2.key := hdo.hash_compat _ _ hc
    have hbmem : id2 ∈ mapGet s.map b := by
      have := hi.resident_bucket id2 it2 hm2 hl2
      rw [hhash2, ← hhq] at this
      exact this
    exact scanChain_none desc s.items key (desc.hash_func key) _ hmiss id2
      hbmem it2 hl2 ⟨by rw [hhash2, ← hhq], hc⟩
  constructor
  · intro x it0 hit0
    by_cases he : x = nid
    · subst he
      rw [hlook_self] at hit0
      cases hit0
      rfl
    · rw [hlook_ne x he] at hit0
      exact hk.key_hash x it0 hit0
  · intro id1 id2 it1 it2 hm1 hm2 hl1 hl2 hc
    rcases (hmemA id1).mp hm1 with he1 | he1 <;>
      rcases (hmemA id2).mp hm2 with he2 | he2
    · rw [he1, he2]
    · exfalso
      subst he1
      rw [hlook_self] at hl1
      cases hl1
      have hl2' : alook s.items id2 = some it2 := by
        rw [← hlook_ne id2 (hi.resident_ne_fresh id2 he2)]
        exact hl2
      exact hclash id2 it2 he2 hl2' hc
    · exfalso
      subst he2
      rw [hlook_self] at hl2
      cases hl2
      have hl1' : alook s.items id1 = some it1 := by
        rw [← hlook_ne id1 (hi.resident_ne_fresh id1 he1)]
        exact hl1
      exact hclash id1 it1 he1 hl1' (hdo.symm _ _ hc)
    · have hl1' : alook s.items id1 = some it1 := by
        rw [← hlook_ne id1 (hi.resident_ne_fresh id1 he1)]
        exact hl1
      have hl2' : alook s.items id2 = some it2 := by
        rw [← hlook_ne id2 (hi.resident_ne_fresh id2 he2)]
        exact hl2
      exact hk.unique_keys id1 id2 it1 it2 he1 he2 hl1' hl2' hc

/-- Every cache operation preserves the key-level invariant (for a lawful
descriptor). -/
theorem step_kinv {K : Type} {desc : CacheDesc K} {H : Nat}
    {s t : Cache K} (hdo : DescOk desc) (hst : Step desc H s t)
    (hi : CInv H s) (hk : KInv desc s) : KInv desc t := by
  cases hst with
  | get client key aOk mOk =>
    cases hscan : scanChain desc s.items key (desc.hash_func key)
        (mapGet s.map (desc.hash_func key % s.buckets)) with
    | some id =>
      obtain ⟨it, hit, _, _, _⟩ := scanChain_some desc s.items key _ _ id hscan
      rw [ass_cache_get_hit_eq desc H client key s id it aOk mOk hscan hit]
      exact kinv_getHit hk client id it hit
    | none =>
      cases aOk with
      | false =>
        rw [ass_cache_get_noalloc_eq desc H client key s mOk hscan]
        exact hk
      | true =>
        cases mOk with
        | false =>
          rw [ass_cache_get_nomove_eq desc H client key s hscan]
          exact hk
        | true => exact kinv_getMiss client key hdo hi hk hscan
  | inc id =>
    unfold ass_cache_inc_ref
    cases h : alook s.items id with
    | none => exact hk
    | some it =>
      show KInv desc { s with items := aset s.items id { it with ref_count := it.ref_count + 1 } }
      refine kinv_of_refine hk ?_ ?_
      · exact refine_aset_meta s.items id it _ h rfl rfl
      · intro x hx
        exact hx
  | dec id s2 hok =>
    refine kinv_of_refine hk (dec_ref_item_refines s id) ?_
    intro x hx
    have hx2 : x ∈ allChainIds (dec_ref_item s id) := hx
    rw [allChainIds_congr _ s (dec_ref_item_fields s id).1] at hx2
    exact hx2
  | cut maxSize =>
    set s1 : Cache K :=
      { s with queue := promoteDrain s.queue (promoteAll s), promote := [] } with hs1
    have hk1 : KInv desc s1 := by
      refine kinv_of_refine hk (itemsRefine_refl s.items) ?_
      intro x hx
      exact hx
    have hkl := @cutLoop_kinv K desc H maxSize s1.queue.length s1
      (cinv_drain hi) rfl rfl hk1
    show KInv desc ({ (cutLoop H maxSize s1.queue.length s1).1 with
      cur_frame := (cutLoop H maxSize s1.queue.length s1).1.cur_frame + 1 })
    refine kinv_of_refine hkl (itemsRefine_refl _) ?_
    intro x hx
    exact hx
  | empty =>
    refine kinv_of_refine hk ?_ ?_
    · show ItemsRefine ((s.map.map Prod.snd).foldl
        (fun acc chain => emptyChain H chain acc) s).items s.items
      exact emptyFold_refines H (s.map.map Prod.snd) s
    · intro x hx
      exact (List.not_mem_nil x hx).elim
  | done =>
    refine kinv_of_refine hk ?_ ?_
    · show ItemsRefine ((s.map.map Prod.snd).foldl
        (fun acc chain => emptyChain H chain acc) s).items s.items
      exact emptyFold_refines H (s.map.map Prod.snd) s
    · intro x hx
      exact (List.not_mem_nil x hx).elim

/-- The key-level invariant holds along any operation sequence. -/
theorem steps_kinv {K : Type} {desc : CacheDesc K} {H : Nat}
    {s t : Cache K} (hdo : DescOk desc) (hst : Steps desc H s t)
    (hi : CInv H s) (hk : KInv desc s) : KInv desc t := by
  induction hst with
  | refl => exact hk
  | tail hs h ih => exact step_kinv hdo h (steps_cinv hs hi) ih

/-- Every reachable state satisfies the key-level invariant. -/
theorem reachable_kinv {K : Type} {desc : CacheDesc K} {H : Nat}
    {s : Cache K} (hdo : DescOk desc) (hr : Reachable desc H s) :
    KInv desc s :=
  steps_kinv hdo hr (inv_create K H) (kinv_create K desc)

theorem steps_trans {K : Type} {desc : CacheDesc K} {H : Nat}
    {s t u : Cache K} (h1 : Steps desc H s t) (h2 : Steps desc H t u) :
    Steps desc H s u := by
  induction h2 with
  | refl => exact h1
  | tail _ h ih => exact Steps.tail ih h

/-- The eviction loop never rebinds an item id. -/
theorem cutLoop_refines {K : Type} (H maxSize : Nat) :
    ∀ (fuel : Nat) (s : Cache K),
    ItemsRefine (cutLoop H maxSize fuel s).1.items s.items ∧
    (cutLoop H maxSize fuel s).1.next_id = s.next_id
  | 0, s => ⟨itemsRefine_refl s.items, rfl⟩
  | fuel + 1, s => by
    by_cases hsz : s.cache_size ≤ maxSize
    · rw [show cutLoop H maxSize (fuel + 1) s = (s, []) from by
        rw [cutLoop_succ, if_pos hsz]]
      exact ⟨itemsRefine_refl s.items, rfl⟩
    · cases hq : s.queue with
      | nil =>
        rw [show cutLoop H maxSize (fuel + 1) s = (s, []) from by
          rw [cutLoop_succ, if_neg hsz]
          simp only [hq]]
        exact ⟨itemsRefine_refl s.items, rfl⟩
      | cons id rest =>
        cases hit : alook s.items id with
        | none =>
          rw [show cutLoop H maxSize (fuel + 1) s = (s, []) from by
            rw [cutLoop_succ, if_neg hsz]
            simp only [hq, hit]]
          exact ⟨itemsRefine_refl s.items, rfl⟩
        | some it =>
          by_cases hf : it.last_used_frame = s.cur_frame
          · rw [show cutLoop H maxSize (fuel + 1) s = (s, []) from by
              rw [cutLoop_succ, if_neg hsz]
              simp only [hq, hit]
              rw [if_pos hf]]
            exact ⟨itemsRefine_refl s.items, rfl⟩
          · have ih := cutLoop_refines H maxSize fuel (evictHead H s id it rest)
            rw [show cutLoop H maxSize (fuel + 1) s =
                ((cutLoop H maxSize fuel (evictHead H s id it rest)).1,
                 (id, it) :: (cutLoop H maxSize fuel (evictHead H s id it rest)).2) from by
              rw [cutLoop_succ, if_neg hsz]
              simp only [hq, hit]
              rw [if_neg hf]]
            set s_mid : Cache K :=
              { s with queue := rest,
                       map := aset s.map (it.hash % s.buckets)
                         ((mapGet s.map (it.hash % s.buckets)).erase id),
                       cache_size := s.cache_size - contrib H it } with hsmid
            have hev : evictHead H s id it rest = dec_ref_item s_mid id := rfl
            constructor
            · refine ih.1.trans ?_
              rw [hev]
              exact dec_ref_item_refines s_mid id
            · rw [ih.2, hev, (dec_ref_item_fields s_mid id).2.2.2.2.2.2]

/-- One step never rebinds an existing id: a binding surviving the step
keeps its key and hash, and `next_id` never decreases. -/
theorem step_lookup_evolution {K : Type} {desc : CacheDesc K} {H : Nat}
    {s t : Cache K} (hst : Step desc H s t) (hi : CInv H s)
    (v : Nat) (hv : v < s.next_id) :
    s.next_id ≤ t.next_id ∧
    (∀ it', alook t.items v = some it' →
      ∃ it, alook s.items v = some it ∧ it.key = it'.key ∧ it.hash = it'.hash) := by
  cases hst with
  | get client key aOk mOk =>
    cases hscan : scanChain desc s.items key (desc.hash_func key)
        (mapGet s.map (desc.hash_func key % s.buckets)) with
    | some id =>
      obtain ⟨it, hit, _, _, _⟩ := scanChain_some desc s.items key _ _ id hscan
      rw [ass_cache_get_hit_eq desc H client key s id it aOk mOk hscan hit]
      refine ⟨?_, ?_⟩
      · rw [(getHit_fields client s id it).2.2.2.2.2.1]
      · intro it' h'
        unfold getHit at h'
        by_cases hf : it.last_used_frame = s.cur_frame
        · rw [if_pos hf] at h'
          exact ⟨it', h', rfl, rfl⟩
        · rw [if_neg hf] at h'
          have h'' : alook (aset s.items id { it with last_used_frame := s.cur_frame }) v
              = some it' := h'
          by_cases he : v = id
          · subst he
            rw [alook_aset_self] at h''
            cases h''
            exact ⟨it, hit, rfl, rfl⟩
          · rw [alook_aset_ne s.items id v _ (fun e => he e.symm)] at h''
            exact ⟨it', h'', rfl, rfl⟩
    | none =>
      cases aOk with
      | false =>
        rw [ass_cache_get_noalloc_eq desc H client key s mOk hscan]
        exact ⟨Nat.le_refl _, fun it' h' => ⟨it', h', rfl, rfl⟩⟩
      | true =>
        cases mOk with
        | false =>
          rw [ass_cache_get_nomove_eq desc H client key s hscan]
          exact ⟨Nat.le_refl _, fun it' h' => ⟨it', h', rfl, rfl⟩⟩
        | true =>
          rw [ass_cache_get_miss_eq desc H client key s hscan]
          refine ⟨by show s.next_id ≤ s.next_id + 1; omega, ?_⟩
          intro it' h'
          have hitems' : (({ finishConstruct H (insertNewItem desc key s).1
              (desc.construct_func key) (insertNewItem desc key s).2 with
              construct_log := key :: s.construct_log } : Cache K)).items =
              aset (aset s.items s.next_id (prepareItem desc key s.cur_frame))
                s.next_id { prepareItem desc key s.cur_frame with
                  size := desc.construct_func key } := by
            show (finishConstruct H (insertNewItem desc key s).1
              (desc.construct_func key) (insertNewItem desc key s).2).items = _
            unfold finishConstruct
            rw [show (insertNewItem desc key s).1 = s.next_id from rfl,
              show alook (insertNewItem desc key s).2.items s.next_id =
                some (prepareItem desc key s.cur_frame) from alook_aset_self _ _ _]
            rfl
          rw [hitems'] at h'
          have hne : v ≠ s.next_id := by omega
          rw [alook_aset_ne _ _ _ _ (fun e => hne e.symm),
            alook_aset_ne _ _ _ _ (fun e => hne e.symm)] at h'
          exact ⟨it', h', rfl, rfl⟩
  | inc id =>
    unfold ass_cache_inc_ref
    cases h : alook s.items id with
    | none => exact ⟨Nat.le_refl _, fun it' h' => ⟨it', h', rfl, rfl⟩⟩
    | some it =>
      refine ⟨Nat.le_refl _, ?_⟩
      intro it' h'
      have h'' : alook (aset s.items id { it with ref_count := it.ref_count + 1 }) v
          = some it' := h'
      by_cases he : v = id
      · subst he
        rw [alook_aset_self] at h''
        cases h''
        exact ⟨it, h, rfl, rfl⟩
      · rw [alook_aset_ne s.items id v _ (fun e => he e.symm)] at h''
        exact ⟨it', h'', rfl, rfl⟩
  | dec id s2 hok =>
    refine ⟨?_, ?_⟩
    · show s.next_id ≤ (dec_ref_item s id).next_id
      rw [(dec_ref_item_fields s id).2.2.2.2.2.2]
    · intro it' h'
      exact dec_ref_item_refines s id v it' h'
  | cut maxSize =>
    set s1 : Cache K :=
      { s with queue := promoteDrain s.queue (promoteAll s), promote := [] } with hs1
    have hcl := cutLoop_refines H maxSize s1.queue.length s1
    refine ⟨?_, ?_⟩
    · show s.next_id ≤ (cutLoop H maxSize s1.queue.length s1).1.next_id
      rw [hcl.2]
    · intro it' h'
      have h'' : alook (cutLoop H maxSize s1.queue.length s1).1.items v = some it' := h'
      exact hcl.1 v it' h''
  | empty =>
    have hr := emptyFold_refines H (s.map.map Prod.snd) s
    have hp := emptyFold_props H (s.map.map Prod.snd) s hi.items_keys_nodup
      hi.items_bound hi.frame_le
    refine ⟨?_, ?_⟩
    · show s.next_id ≤ ((s.map.map Prod.snd).foldl
        (fun acc chain => emptyChain H chain acc) s).next_id
      rw [hp.2.2.2.2.2]
    · intro it' h'
      exact hr v it' h'
  | done =>
    have hr := emptyFold_refines H (s.map.map Prod.snd) s
    have hp := emptyFold_props H (s.map.map Prod.snd) s hi.items_keys_nodup
      hi.items_bound hi.frame_le
    refine ⟨?_, ?_⟩
    · show s.next_id ≤ ((s.map.map Prod.snd).foldl
        (fun acc chain => emptyChain H chain acc) s).next_id
      rw [hp.2.2.2.2.2]
    · intro it' h'
      exact hr v it' h'

/-- Across any operation sequence, a surviving binding keeps its key. -/
theorem steps_lookup_evolution {K : Type} {desc : CacheDesc K} {H : Nat}
    {s t : Cache K} (hst : Steps desc H s t) (hi : CInv H s)
    (v : Nat) (hv : v < s.next_id) :
    s.next_id ≤ t.next_id ∧
    (∀ it', alook t.items v = some it' →
      ∃ it, alook s.items v = some it ∧ it.key = it'.key ∧ it.hash = it'.hash) := by
  induction hst with
  | refl => exact ⟨Nat.le_refl _, fun it' h' => ⟨it', h', rfl, rfl⟩⟩
  | tail hs h ih =>
    have hi2 := steps_cinv hs hi
    have hv2 : v < _ := Nat.lt_of_lt_of_le hv ih.1
    have hstep := step_lookup_evolution h hi2 v hv2
    refine ⟨Nat.le_trans ih.1 hstep.1, ?_⟩
    intro it' h'
    obtain ⟨it2, h2, h3, h4⟩ := hstep.2 it' h'
    obtain ⟨it1, h5, h6, h7⟩ := ih.2 it2 h2
    exact ⟨it1, h5, h6.trans h3, h7.trans h4⟩

/-- With a lawful descriptor, a `get` probing a key that compares equal to
a resident item's key hits exactly that item and constructs nothing. -/
theorem get_resident_hit {K : Type} {desc : CacheDesc K} {H : Nat}
    (client : Nat) (k : K) {s : Cache K}
    (hdo : DescOk desc) (hi : CInv H s) (hk : KInv desc s)
    (v : Nat) (itv : CacheItem K)
    (hres : v ∈ allChainIds s) (hlv : alook s.items v = some itv)
    (hcmp : desc.compare_func k itv.key = true) (aOk mOk : Bool) :
    (ass_cache_get desc H client k aOk mOk s).value = some v ∧
    (ass_cache_get desc H client k aOk mOk s).state.construct_log =
      s.construct_log := by
  have hhv : itv.hash = desc.hash_func k := by
    rw [hk.key_hash v itv hlv]
    exact (hdo.hash_compat k itv.key hcmp).symm
  have hmem : v ∈ mapGet s.map (desc.hash_func k % s.buckets) := by
    have := hi.resident_bucket v itv hres hlv
    rw [hhv] at this
    exact this
  obtain ⟨id', hscan⟩ := scanChain_isSome_of_mem desc s.items k
    (desc.hash_func k) _ v itv hmem hlv hhv hcmp
  obtain ⟨it', hl', hmem', hh', hc'⟩ :=
    scanChain_some desc s.items k (desc.hash_func k) _ id' hscan
  have hres' : id' ∈ allChainIds s := mem_mapGet_allChainIds s _ id' hmem'
  have heq : id' = v := by
    refine hk.unique_keys id' v it' itv hres' hres hl' hlv ?_
    exact hdo.trans _ _ _ (hdo.symm _ _ hc') hcmp
  subst heq
  rw [ass_cache_get_hit_eq desc H client k s id' it' aOk mOk hscan hl']
  exact ⟨rfl, (getHit_fields client s id' it').2.2.2.2.2.2⟩

/-- After a successful `get`, the returned id is resident and its stored
key compares equal to the probe key (for a lawful descriptor). -/
theorem get_value_resident {K : Type} {desc : CacheDesc K} {H : Nat}
    (client : Nat) (k : K) {s : Cache K}
    (hdo : DescOk desc) (hi : CInv H s) (v : Nat)
    (hv : (ass_cache_get desc H client k true true s).value = some v) :
    v ∈ allChainIds (ass_cache_get desc H client k true true s).state ∧
    (∃ itv, alook (ass_cache_get desc H client k true true s).state.items v =
        some itv ∧ desc.compare_func k itv.key = true) ∧
    v < (ass_cache_get desc H client k true true s).state.next_id := by
  cases hscan : scanChain desc s.items k (desc.hash_func k)
      (mapGet s.map (desc.hash_func k % s.buckets)) with
  | some id =>
    obtain ⟨it, hit, hmem, hh, hc⟩ :=
      scanChain_some desc s.items k (desc.hash_func k) _ id hscan
    rw [ass_cache_get_hit_eq desc H client k s id it true true hscan hit] at hv ⊢
    have hv2 : id = v := by
      cases hv
      rfl
    subst hv2
    have hres : id ∈ allChainIds s := mem_mapGet_allChainIds s _ id hmem
    refine ⟨?_, ?_, ?_⟩
    · show id ∈ allChainIds (getHit client s id it)
      rw [allChainIds_congr _ s (getHit_fields client s id it).1]
      exact hres
    · unfold getHit
      by_cases hf : it.last_used_frame = s.cur_frame
      · rw [if_pos hf]
        exact ⟨it, hit, hc⟩
      · rw [if_neg hf]
        refine ⟨{ it with last_used_frame := s.cur_frame }, ?_, hc⟩
        show alook (aset s.items id { it with last_used_frame := s.cur_frame }) id = _
        exact alook_aset_self _ _ _
    · show id < (getHit client s id it).next_id
      rw [(getHit_fields client s id it).2.2.2.2.2.1]
      exact hi.items_bound id (List.mem_map.mpr ⟨(id, it), alook_mem _ _ _ hit, rfl⟩)
  | none =>
    rw [ass_cache_get_miss_eq desc H client k s hscan] at hv ⊢
    have hv2 : s.next_id = v := by
      cases hv
      rfl
    subst hv2
    have h0 : alook (insertNewItem desc k s).2.items s.next_id =
        some (prepareItem desc k s.cur_frame) := alook_aset_self _ _ _
    refine ⟨?_, ?_, ?_⟩
    · have hperm : List.Perm
          (allChainIds ({ finishConstruct H (insertNewItem desc k s).1
            (desc.construct_func k) (insertNewItem desc k s).2 with
            construct_log := k :: s.construct_log } : Cache K))
          (s.next_id :: allChainIds s) := by
        show List.Perm (((aset s.map (desc.hash_func k % s.buckets)
          (s.next_id :: mapGet s.map (desc.hash_func k % s.buckets))).map Prod.snd).flatten) _
        exact flatten_aset_push_perm s.map _ s.next_id
      rw [hperm.mem_iff]
      simp
    · refine ⟨{ prepareItem desc k s.cur_frame with size := desc.construct_func k }, ?_, ?_⟩
      · show alook (finishConstruct H s.next_id
          (desc.construct_func k) (insertNewItem desc k s).2).items s.next_id = _
        rw [finishConstruct_alook_self _ _ _ _ _ h0]
      · exact hdo.refl k
    · show s.next_id < s.next_id + 1
      omega

/-- `desc0` is lawful. -/
theorem descOk_desc0 : DescOk desc0 := by
  refine ⟨?_, ?_, ?_, ?_⟩
  · intro a
    simp [desc0]
  · intro a b h
    simp [desc0] at h ⊢
    omega
  · intro a b c h1 h2
    simp [desc0] at h1 h2 ⊢
    omega
  · intro a b h
    simp [desc0] at h ⊢
    omega

/-- `desc10` is lawful. -/
theorem descOk_desc10 : DescOk desc10 := by
  refine ⟨?_, ?_, ?_, ?_⟩
  · intro a
    simp [desc10]
  · intro a b h
    simp [desc10] at h ⊢
    omega
  · intro a b c h1 h2
    simp [desc10] at h1 h2 ⊢
    omega
  · intro a b h
    simp [desc10] at h ⊢
    omega

/-!
## Claim C4: repeated `get` returns the same pointer, one construction
-/

/-- C4: a `get(K)` followed by a `get` with an equal key (equal hash and
descriptor equality, for a lawful descriptor) returns the same value
pointer — immediately, and after any sequence of operations during which
no `cut`/`empty` evicted the item (i.e. it is still resident) — and the
follow-up `get` invokes no constructor: at most one construction per key
equivalence class per residency. -/
theorem thm_C4_repeat_get {K : Type} (desc : CacheDesc K) (H : Nat)
    (s : Cache K) (c1 c2 : Nat) (k : K) (v : Nat)
    (hdo : DescOk desc) (hr : Reachable desc H s)
    (hv : (ass_cache_get desc H c1 k true true s).value = some v) :
    ((ass_cache_get desc H c2 k true true
        (ass_cache_get desc H c1 k true true s).state).value = some v ∧
     (ass_cache_get desc H c2 k true true
        (ass_cache_get desc H c1 k true true s).state).state.construct_log =
       (ass_cache_get desc H c1 k true true s).state.construct_log) ∧
    (∀ s2, Steps desc H (ass_cache_get desc H c1 k true true s).state s2 →
      v ∈ allChainIds s2 →
      (ass_cache_get desc H c2 k true true s2).value = some v ∧
      (ass_cache_get desc H c2 k true true s2).state.construct_log =
        s2.construct_log) := by
  have hi := reachable_cinv hr
  have hr1 : Reachable desc H (ass_cache_get desc H c1 k true true s).state :=
    Steps.tail hr (Step.get c1 k true true s)
  have hi1 := reachable_cinv hr1
  have hk1 := reachable_kinv hdo hr1
  obtain ⟨hres1, ⟨itv1, hlv1, hcmp1⟩, hvlt⟩ :=
    get_value_resident c1 k hdo hi v hv
  have hgen : ∀ s2, Steps desc H (ass_cache_get desc H c1 k true true s).state s2 →
      v ∈ allChainIds s2 →
      (ass_cache_get desc H c2 k true true s2).value = some v ∧
      (ass_cache_get desc H c2 k true true s2).state.construct_log =
        s2.construct_log := by
    intro s2 hsteps hres2
    have hi2 := steps_cinv hsteps hi1
    have hk2 := steps_kinv hdo hsteps hi1 hk1
    obtain ⟨itv2, hlv2⟩ := hi2.chain_live v hres2
    have hev := steps_lookup_evolution hsteps hi1 v hvlt
    obtain ⟨it0, hl0, hkey0, _⟩ := hev.2 itv2 hlv2
    have he0 : it0 = itv1 := Option.some_inj.mp (hl0.symm.trans hlv1)
    have hcmp2 : desc.compare_func k itv2.key = true := by
      rw [← hkey0, he0]
      exact hcmp1
    exact get_resident_hit c2 k hdo hi2 hk2 v itv2 hres2 hlv2 hcmp2 true true
  exact ⟨hgen _ (Steps.refl _) hres1, hgen⟩

/-- Witness for C4: two consecutive `get 5` on a fresh cache. -/
theorem thm_C4_repeat_get_witness :
    (DescOk desc10 ∧ Reachable desc10 96 (ass_cache_create Nat) ∧
     (ass_cache_get desc10 96 0 5 true true (ass_cache_create Nat)).value = some 0) ∧
    (((ass_cache_get desc10 96 1 5 true true
        (ass_cache_get desc10 96 0 5 true true (ass_cache_create Nat)).state).value = some 0 ∧
      (ass_cache_get desc10 96 1 5 true true
        (ass_cache_get desc10 96 0 5 true true (ass_cache_create Nat)).state).state.construct_log =
        (ass_cache_get desc10 96 0 5 true true (ass_cache_create Nat)).state.construct_log) ∧
     (∀ s2, Steps desc10 96
        (ass_cache_get desc10 96 0 5 true true (ass_cache_create Nat)).state s2 →
        0 ∈ allChainIds s2 →
        (ass_cache_get desc10 96 1 5 true true s2).value = some 0 ∧
        (ass_cache_get desc10 96 1 5 true true s2).state.construct_log =
          s2.construct_log)) :=
  ⟨⟨descOk_desc10, Steps.refl _, by decide⟩,
   thm_C4_repeat_get desc10 96 (ass_cache_create Nat) 0 1 5 0
     descOk_desc10 (Steps.refl _) (by decide)⟩
